import Mathlib

/-!
# Verification of the climate interpolation engine

A shallow embedding, over `ℚ`, of `backend/processing/interpolation.py`:
the natural cubic spline interpolator (Thomas-algorithm tridiagonal solve),
the Fritsch–Carlson-style monotonic Hermite interpolator, the piecewise
linear interpolator, and the multi-variable `ClimateInterpolator` with its
clamping/rounding post-processing, together with theorems about knot
interpolation, C² continuity, monotone boundedness, output bounds and
error behaviour.

Machine floats are modelled by exact rationals; Python's `round`
(banker's rounding) is modelled exactly by `roundHalfEven`.
-/

namespace Climate

/-- The state stored by a single-variable interpolator after construction:
the number of knots and the sorted knot abscissae/ordinates
(`self.x`, `self.y` in `CubicSplineInterpolator.__init__` /
`MonotonicInterpolator.__init__`).  Indices `≥ n` are junk (default `0`). -/
structure Knots where
  n : ℕ
  x : ℕ → ℚ
  y : ℕ → ℚ

/-- The knot abscissae are strictly increasing (the documented invariant
of every single-variable interpolator's input after sorting). -/
def StrictSorted (K : Knots) : Prop := ∀ i, i + 1 < K.n → K.x i < K.x (i + 1)

/-- Sorting of the `(x, y)` pairs by abscissa performed in the constructors
(`sorted_indices = np.argsort(x); self.x = ...; self.y = ...`).  Modelled by a
stable comparison sort on the zipped pairs; it agrees with `np.argsort`
whenever the keys are distinct or already sorted. -/
def sortPairs (ps : List (ℚ × ℚ)) : List (ℚ × ℚ) :=
  ps.insertionSort (fun p q => p.1 ≤ q.1)

/-- Constructor core shared by the interpolators: zip `x` with `y`, sort by
`x`, store the sorted arrays and their length
(`self.x`, `self.y`, `self.n = len(self.x)`). -/
def knotsOf (xs ys : List ℚ) : Knots :=
  { n := (sortPairs (xs.zip ys)).length
    x := fun i => ((sortPairs (xs.zip ys)).getD i (0, 0)).1
    y := fun i => ((sortPairs (xs.zip ys)).getD i (0, 0)).2 }

/-- Interval widths `h = np.diff(self.x)`. -/
def hdiff (K : Knots) (i : ℕ) : ℚ := K.x (i + 1) - K.x i

/-- `np.searchsorted(self.x, x)` (side `left`): the insertion index, i.e.
the number of knot abscissae strictly below `v`. -/
def searchsorted (K : Knots) (v : ℚ) : ℕ :=
  ((Finset.range K.n).filter (fun k => K.x k < v)).card

/-- `i = np.searchsorted(self.x, x) - 1; i = max(0, min(i, self.n - 2))`,
the index of the segment used to evaluate at an in-range point. -/
def segIndex (K : Knots) (v : ℚ) : ℕ := min (searchsorted K v - 1) (K.n - 2)

/-! ## CubicSplineInterpolator._compute_coefficients -/

/-- Diagonal of the tridiagonal system
(`diag[0] = diag[-1] = 1.0; diag[i] = 2.0 * (h[i-1] + h[i])`). -/
def diag (K : Knots) (i : ℕ) : ℚ :=
  if i = 0 then 1 else if i = K.n - 1 then 1 else 2 * (hdiff K (i - 1) + hdiff K i)

/-- Sub-diagonal (`lower[i-1] = h[i-1]` for `i` in `range(1, n-1)`,
zero elsewhere). -/
def lower (K : Knots) (j : ℕ) : ℚ := if j < K.n - 2 then hdiff K j else 0

/-- Super-diagonal (`upper[i] = h[i]` for `i` in `range(1, n-1)`,
zero elsewhere). -/
def upper (K : Knots) (i : ℕ) : ℚ :=
  if 1 ≤ i ∧ i ≤ K.n - 2 then hdiff K i else 0

/-- Right-hand side
(`rhs[i] = 3.0*((y[i+1]-y[i])/h[i] - (y[i]-y[i-1])/h[i-1])` for interior `i`,
zero at the boundary rows). -/
def rhs (K : Knots) (i : ℕ) : ℚ :=
  if 1 ≤ i ∧ i ≤ K.n - 2 then
    3 * ((K.y (i + 1) - K.y i) / hdiff K i - (K.y i - K.y (i - 1)) / hdiff K (i - 1))
  else 0

/-- Thomas-algorithm forward sweep, modified super-diagonal
(`c_prime[0] = upper[0]/diag[0]`;
`c_prime[i] = upper[i]/denom` for `i < n - 1`, untouched `0.0` otherwise). -/
def cPrime (K : Knots) : ℕ → ℚ
  | 0 => upper K 0 / diag K 0
  | i + 1 =>
    if i + 1 < K.n - 1 then
      upper K (i + 1) / (diag K (i + 1) - lower K i * cPrime K i)
    else 0

/-- Thomas-algorithm forward sweep, modified right-hand side
(`d_prime[0] = rhs[0]/diag[0]`;
`d_prime[i] = (rhs[i] - lower[i-1]*d_prime[i-1])/denom`). -/
def dPrime (K : Knots) : ℕ → ℚ
  | 0 => rhs K 0 / diag K 0
  | i + 1 =>
    (rhs K (i + 1) - lower K i * dPrime K i) /
      (diag K (i + 1) - lower K i * cPrime K i)

/-- Back substitution counted from the top row:
`Maux K 0` is `M[n-1]` and `Maux K (k+1)` is `M[n-1-(k+1)]`
(`M[i] = d_prime[i] - c_prime[i]*M[i+1]`). -/
def Maux (K : Knots) : ℕ → ℚ
  | 0 => dPrime K (K.n - 1)
  | k + 1 => dPrime K (K.n - 2 - k) - cPrime K (K.n - 2 - k) * Maux K k

/-- The solved second derivatives at each knot (the array `M` in
`_compute_coefficients`). -/
def M (K : Knots) (i : ℕ) : ℚ := Maux K (K.n - 1 - i)

/-- Per-segment coefficient `a` (`self.a = self.y[:-1].copy()`;
`self.a = self.y.copy()` in the `n == 2` branch — in both cases
`a[i] = y[i]` at every valid index). -/
def acoef (K : Knots) (i : ℕ) : ℚ := K.y i

/-- Per-segment coefficient `b`
(`self.b[i] = (y[i+1]-y[i])/h[i] - h[i]*(2*M[i]+M[i+1])/3`;
`[(y[1]-y[0])/h[0]]` in the `n == 2` branch). -/
def bcoef (K : Knots) (i : ℕ) : ℚ :=
  if K.n = 2 then (K.y 1 - K.y 0) / (K.x 1 - K.x 0)
  else (K.y (i + 1) - K.y i) / hdiff K i - hdiff K i * (2 * M K i + M K (i + 1)) / 3

/-- Per-segment coefficient `c` (`self.c[i] = M[i]`; zero in the `n == 2`
branch). -/
def ccoef (K : Knots) (i : ℕ) : ℚ := if K.n = 2 then 0 else M K i

/-- Per-segment coefficient `d` (`self.d[i] = (M[i+1]-M[i])/(3*h[i])`;
zero in the `n == 2` branch). -/
def dcoef (K : Knots) (i : ℕ) : ℚ :=
  if K.n = 2 then 0 else (M K (i + 1) - M K i) / (3 * hdiff K i)

/-- The cubic evaluated on segment `i` at offset `dx`
(`self.a[i] + self.b[i]*dx + self.c[i]*dx**2 + self.d[i]*dx**3`). -/
def segEval (K : Knots) (i : ℕ) (dx : ℚ) : ℚ :=
  acoef K i + bcoef K i * dx + ccoef K i * dx ^ 2 + dcoef K i * dx ^ 3

/-- First derivative of segment `i` at offset `dx`
(`self.b[i] + 2*self.c[i]*dx + 3*self.d[i]*dx**2`). -/
def segD1 (K : Knots) (i : ℕ) (dx : ℚ) : ℚ :=
  bcoef K i + 2 * ccoef K i * dx + 3 * dcoef K i * dx ^ 2

/-- Second derivative of segment `i` at offset `dx`
(`2*self.c[i] + 6*self.d[i]*dx`). -/
def segD2 (K : Knots) (i : ℕ) (dx : ℚ) : ℚ :=
  2 * ccoef K i + 6 * dcoef K i * dx

/-- `CubicSplineInterpolator.__call__`: clamp to the boundary ordinate
outside the knot range, otherwise locate the segment and evaluate the
cubic at `dx = x - self.x[i]`. -/
def splineEval (K : Knots) (v : ℚ) : ℚ :=
  if v ≤ K.x 0 then K.y 0
  else if K.x (K.n - 1) ≤ v then K.y (K.n - 1)
  else segEval K (segIndex K v) (v - K.x (segIndex K v))

/-- `CubicSplineInterpolator.derivative`: `0.0` outside the knot range
(checked before the order), the analytic first/second segment derivative
in range, and `ValueError` for any other order. -/
def derivative (K : Knots) (v : ℚ) (order : ℤ) : Except String ℚ :=
  if v ≤ K.x 0 ∨ K.x (K.n - 1) ≤ v then .ok 0
  else if order = 1 then .ok (segD1 K (segIndex K v) (v - K.x (segIndex K v)))
  else if order = 2 then .ok (segD2 K (segIndex K v) (v - K.x (segIndex K v)))
  else .error "Only derivatives of order 1 and 2 are supported"

/-! ## MonotonicInterpolator -/

/-- Secant slopes `delta = np.diff(self.y) / h`. -/
def delta (K : Knots) (i : ℕ) : ℚ := (K.y (i + 1) - K.y i) / hdiff K i

/-- The tangents computed by `MonotonicInterpolator._compute_derivatives`:
boundary tangents equal the adjacent secant (assigned last, overwriting the
loop), interior tangents are `0.0` unless the adjacent secants have the same
sign, in which case a weighted harmonic mean with weights
`w1 = 2*h[i] + h[i-1]`, `w2 = h[i] + 2*h[i-1]` is used. -/
def mTangent (K : Knots) (i : ℕ) : ℚ :=
  if i = 0 then (if 1 < K.n then delta K 0 else 0)
  else if i = K.n - 1 then (if 1 < K.n then delta K (K.n - 2) else 0)
  else if delta K (i - 1) * delta K i > 0 then
    ((2 * hdiff K i + hdiff K (i - 1)) + (hdiff K i + 2 * hdiff K (i - 1))) /
      ((2 * hdiff K i + hdiff K (i - 1)) / delta K (i - 1) +
        (hdiff K i + 2 * hdiff K (i - 1)) / delta K i)
  else 0

/-- `MonotonicInterpolator.__call__`: clamp outside the range, otherwise
normalise `t = (x - x[i]) / h` and combine the four cubic Hermite basis
functions `h00, h10, h01, h11` with `(y[i], m[i], y[i+1], m[i+1])`. -/
def monoEval (K : Knots) (v : ℚ) : ℚ :=
  if v ≤ K.x 0 then K.y 0
  else if K.x (K.n - 1) ≤ v then K.y (K.n - 1)
  else
    (2 * ((v - K.x (segIndex K v)) / (K.x (segIndex K v + 1) - K.x (segIndex K v))) ^ 3 -
        3 * ((v - K.x (segIndex K v)) / (K.x (segIndex K v + 1) - K.x (segIndex K v))) ^ 2 + 1) *
      K.y (segIndex K v) +
    (((v - K.x (segIndex K v)) / (K.x (segIndex K v + 1) - K.x (segIndex K v))) ^ 3 -
        2 * ((v - K.x (segIndex K v)) / (K.x (segIndex K v + 1) - K.x (segIndex K v))) ^ 2 +
        (v - K.x (segIndex K v)) / (K.x (segIndex K v + 1) - K.x (segIndex K v))) *
      (K.x (segIndex K v + 1) - K.x (segIndex K v)) * mTangent K (segIndex K v) +
    (-2 * ((v - K.x (segIndex K v)) / (K.x (segIndex K v + 1) - K.x (segIndex K v))) ^ 3 +
        3 * ((v - K.x (segIndex K v)) / (K.x (segIndex K v + 1) - K.x (segIndex K v))) ^ 2) *
      K.y (segIndex K v + 1) +
    (((v - K.x (segIndex K v)) / (K.x (segIndex K v + 1) - K.x (segIndex K v))) ^ 3 -
        ((v - K.x (segIndex K v)) / (K.x (segIndex K v + 1) - K.x (segIndex K v))) ^ 2) *
      (K.x (segIndex K v + 1) - K.x (segIndex K v)) * mTangent K (segIndex K v + 1)

/-! ## Linear interpolator (`np.interp`) -/

/-- `np.interp(val, x_arr, y_arr)` as used by
`ClimateInterpolator._create_linear_interpolator` on sorted abscissae:
boundary value outside the range, linear interpolation on the containing
segment inside. -/
def npInterp (K : Knots) (v : ℚ) : ℚ :=
  if v ≤ K.x 0 then K.y 0
  else if K.x (K.n - 1) ≤ v then K.y (K.n - 1)
  else
    K.y (segIndex K v) +
      (K.y (segIndex K v + 1) - K.y (segIndex K v)) * (v - K.x (segIndex K v)) /
        (K.x (segIndex K v + 1) - K.x (segIndex K v))

/-! ## ClimateInterpolator -/

/-- One record of the input dataset (a "time period"): integer year plus the
climate variables, with `co2_ppm` optional. -/
structure TimePeriod where
  year : ℤ
  sea_level_m : ℚ
  global_temp_c : ℚ
  ice_coverage_pct : ℚ
  co2_ppm : Option ℚ
  deriving DecidableEq, Repr

/-- The `InterpolationMethod` enum. -/
inductive InterpolationMethod where
  | linear
  | cubic_spline
  | pchip
  | akima
  deriving DecidableEq, Repr

/-- The `ClimateState` dataclass produced by `ClimateInterpolator.interpolate`. -/
structure ClimateState where
  year : ℤ
  sea_level_m : ℚ
  global_temp_c : ℚ
  ice_coverage_pct : ℚ
  co2_ppm : Option ℚ
  deriving DecidableEq, Repr

/-- Python's `round(q, ndigits)` on exact values: round half to even
(banker's rounding) at the integer level. -/
def roundHalfEven (q : ℚ) : ℤ :=
  if q - ⌊q⌋ < 1 / 2 then ⌊q⌋
  else if 1 / 2 < q - ⌊q⌋ then ⌊q⌋ + 1
  else if 2 ∣ ⌊q⌋ then ⌊q⌋ else ⌊q⌋ + 1

/-- `round(q, d)`: scale by `10^d`, round half to even, scale back. -/
def pyRound (q : ℚ) (d : ℕ) : ℚ := (roundHalfEven (q * 10 ^ d) : ℚ) / 10 ^ d

/-- `sorted(time_periods, key=lambda x: x["year"])` — Python's stable sort by
year, modelled by insertion sort (also stable). -/
def sortPeriods (tps : List TimePeriod) : List TimePeriod :=
  tps.insertionSort (fun p q => p.year ≤ q.year)

/-- The state owned by a successfully constructed `ClimateInterpolator`:
the year-sorted dataset and the requested method.  The per-variable
interpolators, `min_year` and `max_year` are pure functions of these two
fields and are recomputed by the accessors below. -/
structure ClimateModel where
  periods : List TimePeriod
  method : InterpolationMethod
  deriving DecidableEq, Repr

/-- `years = [p["year"] for p in self.time_periods]` (as rationals). -/
def ClimateModel.yearsQ (mdl : ClimateModel) : List ℚ :=
  mdl.periods.map (fun p => (p.year : ℚ))

/-- The knots of the interpolator backing one variable. -/
def ClimateModel.varKnots (mdl : ClimateModel) (f : TimePeriod → ℚ) : Knots :=
  knotsOf mdl.yearsQ (mdl.periods.map f)

/-- `all("co2_ppm" in p for p in self.time_periods)`. -/
def ClimateModel.hasCo2 (mdl : ClimateModel) : Bool :=
  mdl.periods.all (fun p => p.co2_ppm.isSome)

/-- `self.min_year = min(years)` (junk `0` on an empty dataset, which no
successfully built model has). -/
def ClimateModel.min_year (mdl : ClimateModel) : ℤ :=
  ((mdl.periods.map (fun p => p.year)).min?).getD 0

/-- `self.max_year = max(years)`. -/
def ClimateModel.max_year (mdl : ClimateModel) : ℤ :=
  ((mdl.periods.map (fun p => p.year)).max?).getD 0

/-- The sea-level interpolator selected in `ClimateInterpolator.__init__`:
linear for `LINEAR`, monotonic for `PCHIP`, cubic spline otherwise. -/
def ClimateModel.evalSea (mdl : ClimateModel) (v : ℚ) : ℚ :=
  match mdl.method with
  | .linear => npInterp (mdl.varKnots (fun p => p.sea_level_m)) v
  | .pchip => monoEval (mdl.varKnots (fun p => p.sea_level_m)) v
  | .cubic_spline | .akima => splineEval (mdl.varKnots (fun p => p.sea_level_m)) v

/-- The temperature interpolator (same selection as sea level). -/
def ClimateModel.evalTemp (mdl : ClimateModel) (v : ℚ) : ℚ :=
  match mdl.method with
  | .linear => npInterp (mdl.varKnots (fun p => p.global_temp_c)) v
  | .pchip => monoEval (mdl.varKnots (fun p => p.global_temp_c)) v
  | .cubic_spline | .akima => splineEval (mdl.varKnots (fun p => p.global_temp_c)) v

/-- The ice-coverage interpolator: linear for `LINEAR`, monotonic for
`PCHIP`, and monotonic (never cubic spline) for `CUBIC_SPLINE`/`AKIMA`,
to prevent overshoot beyond 0–100%. -/
def ClimateModel.evalIce (mdl : ClimateModel) (v : ℚ) : ℚ :=
  match mdl.method with
  | .linear => npInterp (mdl.varKnots (fun p => p.ice_coverage_pct)) v
  | .pchip => monoEval (mdl.varKnots (fun p => p.ice_coverage_pct)) v
  | .cubic_spline | .akima => monoEval (mdl.varKnots (fun p => p.ice_coverage_pct)) v

/-- The CO₂ interpolator (only used when every record supplies `co2_ppm`):
monotonic for `PCHIP`, cubic spline for every other method. -/
def ClimateModel.evalCo2 (mdl : ClimateModel) (v : ℚ) : ℚ :=
  match mdl.method with
  | .pchip => monoEval (mdl.varKnots (fun p => p.co2_ppm.getD 0)) v
  | _ => splineEval (mdl.varKnots (fun p => p.co2_ppm.getD 0)) v

/-- `ClimateInterpolator.__init__` as a fallible construction.  The sort and
the per-variable interpolator constructions are pure; the only failures are
the ones the Python constructor raises, in construction order:
* `PCHIP`: `MonotonicInterpolator` hits `IndexError` (`self.m[0] = ...`) on an
  empty dataset, and succeeds on any nonempty one (it never validates `n ≥ 2`);
* `CUBIC_SPLINE`/`AKIMA`: `CubicSplineInterpolator` raises `ValueError`
  ("Need at least 2 points for interpolation") when `n < 2`;
* `LINEAR`: the linear closures are built without validation, but when every
  record carries `co2_ppm` (vacuously true for the empty dataset) the CO₂
  interpolator is a `CubicSplineInterpolator`, which raises when `n < 2`. -/
def climateBuild (tps : List TimePeriod) (m : InterpolationMethod) :
    Except String ClimateModel :=
  match m with
  | .linear =>
    if (sortPeriods tps).all (fun p => p.co2_ppm.isSome) ∧ tps.length < 2 then
      .error "Need at least 2 points for interpolation"
    else .ok { periods := sortPeriods tps, method := m }
  | .pchip =>
    if tps.length = 0 then .error "IndexError: index 0 is out of bounds"
    else .ok { periods := sortPeriods tps, method := m }
  | .cubic_spline | .akima =>
    if tps.length < 2 then .error "Need at least 2 points for interpolation"
    else .ok { periods := sortPeriods tps, method := m }

/-- `ClimateInterpolator.interpolate`: clamp the year into
`[min_year, max_year]`, evaluate each variable, clamp ice coverage to
`[0, 100]` and CO₂ to `≥ 0`, and round (2 decimals; 1 for CO₂). -/
def ClimateModel.interpolate (mdl : ClimateModel) (year : ℤ) : ClimateState :=
  { year := max mdl.min_year (min mdl.max_year year)
    sea_level_m := pyRound (mdl.evalSea ((max mdl.min_year (min mdl.max_year year) : ℤ) : ℚ)) 2
    global_temp_c := pyRound (mdl.evalTemp ((max mdl.min_year (min mdl.max_year year) : ℤ) : ℚ)) 2
    ice_coverage_pct :=
      pyRound (max 0 (min 100 (mdl.evalIce ((max mdl.min_year (min mdl.max_year year) : ℤ) : ℚ)))) 2
    co2_ppm :=
      if mdl.hasCo2 then
        some (pyRound (max 0 (mdl.evalCo2 ((max mdl.min_year (min mdl.max_year year) : ℤ) : ℚ))) 1)
      else none }

/-- The dictionary returned by `ClimateInterpolator.get_rate_of_change`. -/
structure RateOfChange where
  sea_level_m_per_year : ℚ
  temp_c_per_year : ℚ
  ice_pct_per_year : ℚ
  deriving DecidableEq, Repr

/-- `ClimateInterpolator.get_rate_of_change`: when the sea-level interpolator
is a `CubicSplineInterpolator` (methods `CUBIC_SPLINE`/`AKIMA`) use analytic
order-1 derivatives and report the ice rate as the hardcoded `0.0`; otherwise
fall back to a symmetric finite difference of the (rounded) interpolated
states with `epsilon = 100` years.  `derivative(year)` with the default
`order=1` never raises, so the `Except` is collapsed with default `0`. -/
def ClimateModel.get_rate_of_change (mdl : ClimateModel) (year : ℤ) : RateOfChange :=
  match mdl.method with
  | .cubic_spline | .akima =>
    { sea_level_m_per_year :=
        (derivative (mdl.varKnots (fun p => p.sea_level_m)) (year : ℚ) 1).toOption.getD 0
      temp_c_per_year :=
        (derivative (mdl.varKnots (fun p => p.global_temp_c)) (year : ℚ) 1).toOption.getD 0
      ice_pct_per_year := 0 }
  | _ =>
    { sea_level_m_per_year :=
        ((mdl.interpolate (year + 100)).sea_level_m - (mdl.interpolate (year - 100)).sea_level_m) /
          (2 * 100)
      temp_c_per_year :=
        ((mdl.interpolate (year + 100)).global_temp_c -
            (mdl.interpolate (year - 100)).global_temp_c) / (2 * 100)
      ice_pct_per_year :=
        ((mdl.interpolate (year + 100)).ice_coverage_pct -
            (mdl.interpolate (year - 100)).ice_coverage_pct) / (2 * 100) }

/-- `InterpolationMethod(method)`: the enum lookup, `none` on an
unrecognised selector (Python raises `ValueError`). -/
def parseMethod (s : String) : Option InterpolationMethod :=
  if s = "linear" then some .linear
  else if s = "cubic_spline" then some .cubic_spline
  else if s = "pchip" then some .pchip
  else if s = "akima" then some .akima
  else none

/-- The module-level convenience function `interpolate_climate_state`:
resolves the method string with `InterpolationMethod(method)` (raising
`ValueError` on an unknown string), builds a `ClimateInterpolator` and
interpolates. -/
def interpolate_climate_state (year : ℤ) (tps : List TimePeriod) (method : String) :
    Except String ClimateState :=
  match parseMethod method with
  | none => .error "ValueError: not a valid InterpolationMethod"
  | some m => (climateBuild tps m).map (fun mdl => mdl.interpolate year)

/-- The module-level helper `get_interpolation_method`: the same enum lookup,
but an unrecognised name is silently replaced by `CUBIC_SPLINE`. -/
def get_interpolation_method (name : String) : InterpolationMethod :=
  (parseMethod name).getD .cubic_spline

/-! ### Concrete sample records (fixtures for the closed instances below) -/

/-- A present-day record without CO₂. -/
def tpA : TimePeriod :=
  { year := 0, sea_level_m := 0, global_temp_c := 0, ice_coverage_pct := 10, co2_ppm := none }

/-- A second record without CO₂. -/
def tpB : TimePeriod :=
  { year := 200, sea_level_m := -50, global_temp_c := -3, ice_coverage_pct := 100, co2_ppm := none }

/-- A present-day record with CO₂. -/
def tpC : TimePeriod :=
  { year := 0, sea_level_m := 0, global_temp_c := 0, ice_coverage_pct := 10, co2_ppm := some 280 }

/-- A second record with CO₂. -/
def tpD : TimePeriod :=
  { year := 200, sea_level_m := -50, global_temp_c := -3, ice_coverage_pct := 100, co2_ppm := some 180 }

/-- A record with zero ice coverage (used to exhibit a nonzero ice rate). -/
def tpE : TimePeriod :=
  { year := 0, sea_level_m := 0, global_temp_c := 0, ice_coverage_pct := 0, co2_ppm := none }

instance : IsTotal TimePeriod (fun p q => p.year ≤ q.year) :=
  ⟨fun a b => Int.le_total a.year b.year⟩

instance : IsTrans TimePeriod (fun p q => p.year ≤ q.year) :=
  ⟨fun _ _ _ h1 h2 => le_trans h1 h2⟩

instance : IsTotal (ℚ × ℚ) (fun p q => p.1 ≤ q.1) :=
  ⟨fun a b => le_total a.1 b.1⟩

instance : IsTrans (ℚ × ℚ) (fun p q => p.1 ≤ q.1) :=
  ⟨fun _ _ _ h1 h2 => le_trans h1 h2⟩

/-! ## Basic facts about sorted knots and segment lookup -/

theorem x_lt_of_lt {K : Knots} (hs : StrictSorted K) :
    ∀ {i j : ℕ}, i < j → j < K.n → K.x i < K.x j := by
  intro i j hij hj
  induction j with
  | zero => omega
  | succ j ih =>
    rcases Nat.lt_succ_iff_lt_or_eq.mp hij with hlt | heq
    · exact (ih hlt (by omega)).trans (hs j hj)
    · exact heq ▸ hs i (heq ▸ hj)

theorem x_le_of_le {K : Knots} (hs : StrictSorted K) :
    ∀ {i j : ℕ}, i ≤ j → j < K.n → K.x i ≤ K.x j := by
  intro i j hij hj
  rcases Nat.lt_or_ge i j with hlt | hge
  · exact (x_lt_of_lt hs hlt hj).le
  · have : i = j := by omega
    exact this ▸ le_refl _

/-- `np.searchsorted` localisation: if `v` lies in `(x_j, x_{j+1}]`
(with the upper constraint vacuous for the last knot), the insertion index
is `j + 1`. -/
theorem searchsorted_eq {K : Knots} (hs : StrictSorted K) {j : ℕ} {v : ℚ}
    (hj : j < K.n) (hlt : K.x j < v) (hle : j + 1 < K.n → v ≤ K.x (j + 1)) :
    searchsorted K v = j + 1 := by
  unfold searchsorted
  have hset : (Finset.range K.n).filter (fun k => K.x k < v) = Finset.range (j + 1) := by
    ext k
    simp only [Finset.mem_filter, Finset.mem_range]
    constructor
    · rintro ⟨hk, hkv⟩
      by_contra hcon
      have hk1 : j + 1 ≤ k := by omega
      have h1 : j + 1 < K.n := by omega
      have : K.x (j + 1) ≤ K.x k := x_le_of_le hs hk1 hk
      exact absurd hkv (not_lt.mpr ((hle h1).trans this))
    · intro hk
      exact ⟨by omega, lt_of_le_of_lt (x_le_of_le hs (by omega) hj) hlt⟩
  rw [hset, Finset.card_range]

/-- Insertion index at an exact knot: everything strictly left of `x_i`
counts, so `searchsorted` returns `i` itself. -/
theorem searchsorted_knot {K : Knots} (hs : StrictSorted K) {i : ℕ} (hi : i < K.n) :
    searchsorted K (K.x i) = i := by
  unfold searchsorted
  have hset : (Finset.range K.n).filter (fun k => K.x k < K.x i) = Finset.range i := by
    ext k
    simp only [Finset.mem_filter, Finset.mem_range]
    constructor
    · rintro ⟨hk, hkv⟩
      by_contra hcon
      exact absurd hkv (not_lt.mpr (x_le_of_le hs (by omega) hk))
    · intro hk
      exact ⟨by omega, x_lt_of_lt hs hk hi⟩
  rw [hset, Finset.card_range]

/-- The segment chosen for an in-range `v ∈ (x_j, x_{j+1}]` is `j`. -/
theorem segIndex_eq {K : Knots} (hs : StrictSorted K) {j : ℕ} {v : ℚ}
    (hj : j + 2 ≤ K.n) (hlt : K.x j < v) (hle : v ≤ K.x (j + 1)) :
    segIndex K v = j := by
  unfold segIndex
  rw [searchsorted_eq hs (by omega) hlt (fun _ => hle)]
  omega

/-- The segment chosen at an interior knot `x_i` is the left segment `i - 1`. -/
theorem segIndex_knot {K : Knots} (hs : StrictSorted K) {i : ℕ}
    (h1 : 1 ≤ i) (h2 : i < K.n) : segIndex K (K.x i) = i - 1 := by
  unfold segIndex
  rw [searchsorted_knot hs h2]
  omega

/-! ## The constructors' sort is the identity on sorted input -/

theorem zip_sorted {xs ys : List ℚ} (hsort : xs.Chain' (· < ·)) :
    (xs.zip ys).Sorted (fun p q => p.1 ≤ q.1) := by
  have hp : xs.Pairwise (· < ·) := List.chain'_iff_pairwise.mp hsort
  rw [List.Sorted, List.pairwise_iff_getElem]
  intro i j hi hj hij
  rw [List.length_zip] at hi hj
  rw [List.getElem_zip, List.getElem_zip]
  exact le_of_lt (List.pairwise_iff_getElem.mp hp i j (by omega) (by omega) hij)

theorem sortPairs_sorted_eq {xs ys : List ℚ} (hsort : xs.Chain' (· < ·)) :
    sortPairs (xs.zip ys) = xs.zip ys :=
  (zip_sorted hsort).insertionSort_eq

theorem knotsOf_n {xs ys : List ℚ} (hlen : xs.length = ys.length)
    (hsort : xs.Chain' (· < ·)) : (knotsOf xs ys).n = xs.length := by
  unfold knotsOf
  rw [sortPairs_sorted_eq hsort]
  dsimp only
  rw [List.length_zip]
  omega

theorem knotsOf_x {xs ys : List ℚ} (hlen : xs.length = ys.length)
    (hsort : xs.Chain' (· < ·)) {i : ℕ} (hi : i < xs.length) :
    (knotsOf xs ys).x i = xs.getD i 0 := by
  unfold knotsOf
  rw [sortPairs_sorted_eq hsort]
  dsimp only
  have hz : i < (xs.zip ys).length := by rw [List.length_zip]; omega
  rw [List.getD_eq_getElem _ _ hz, List.getElem_zip, List.getD_eq_getElem _ _ hi]

theorem knotsOf_y {xs ys : List ℚ} (hlen : xs.length = ys.length)
    (hsort : xs.Chain' (· < ·)) {i : ℕ} (hi : i < xs.length) :
    (knotsOf xs ys).y i = ys.getD i 0 := by
  unfold knotsOf
  rw [sortPairs_sorted_eq hsort]
  dsimp only
  have hz : i < (xs.zip ys).length := by rw [List.length_zip]; omega
  have hy : i < ys.length := by omega
  rw [List.getD_eq_getElem _ _ hz, List.getElem_zip, List.getD_eq_getElem _ _ hy]

theorem knotsOf_strict {xs ys : List ℚ} (hlen : xs.length = ys.length)
    (hsort : xs.Chain' (· < ·)) : StrictSorted (knotsOf xs ys) := by
  intro i hi
  rw [knotsOf_n hlen hsort] at hi
  rw [knotsOf_x hlen hsort (by omega), knotsOf_x hlen hsort hi]
  have hp : xs.Pairwise (· < ·) := List.chain'_iff_pairwise.mp hsort
  rw [List.getD_eq_getElem _ _ (show i < xs.length by omega), List.getD_eq_getElem _ _ hi]
  exact List.pairwise_iff_getElem.mp hp i (i + 1) (by omega) hi (by omega)

/-! ## Exact interpolation at the knots -/

theorem hdiff_pos {K : Knots} (hs : StrictSorted K) {i : ℕ} (hi : i + 1 < K.n) :
    0 < hdiff K i :=
  sub_pos.mpr (hs i hi)

theorem hdiff_ne_zero {K : Knots} (hs : StrictSorted K) {i : ℕ} (hi : i + 1 < K.n) :
    hdiff K i ≠ 0 :=
  ne_of_gt (hdiff_pos hs hi)

/-- Each segment's cubic reaches the right-hand knot value at
`dx = h_j`, for any values of the solved second derivatives: the
coefficient formulas telescope. -/
theorem segEval_right_end {K : Knots} (hs : StrictSorted K) {j : ℕ}
    (hj : j + 2 ≤ K.n) : segEval K j (hdiff K j) = K.y (j + 1) := by
  have hne : hdiff K j ≠ 0 := hdiff_ne_zero hs (by omega)
  unfold segEval acoef bcoef ccoef dcoef
  by_cases h2 : K.n = 2
  · have hj0 : j = 0 := by omega
    subst hj0
    simp only [if_pos h2]
    unfold hdiff at hne ⊢
    field_simp
  · simp only [if_neg h2]
    field_simp
    ring

/-- Left end of each segment: `dx = 0` gives the left-hand knot value. -/
theorem segEval_left_end (K : Knots) (j : ℕ) : segEval K j 0 = K.y j := by
  unfold segEval acoef
  ring

/-- `CubicSplineInterpolator.__call__` reproduces every knot exactly. -/
theorem splineEval_knot {K : Knots} (hs : StrictSorted K) (hn : 2 ≤ K.n)
    {i : ℕ} (hi : i < K.n) : splineEval K (K.x i) = K.y i := by
  unfold splineEval
  by_cases h0 : i = 0
  · subst h0
    rw [if_pos le_rfl]
  by_cases hlast : i = K.n - 1
  · have hx0 : K.x 0 < K.x i := x_lt_of_lt hs (by omega) hi
    rw [if_neg (not_le.mpr hx0), hlast, if_pos le_rfl]
  · have h1 : 1 ≤ i := by omega
    have h2 : i + 1 < K.n := by omega
    have hx0 : K.x 0 < K.x i := x_lt_of_lt hs (by omega) hi
    have hxl : K.x i < K.x (K.n - 1) := by
      have := x_lt_of_lt hs (show i < K.n - 1 by omega) (show K.n - 1 < K.n by omega)
      exact this
    rw [if_neg (not_le.mpr hx0), if_neg (not_le.mpr hxl), segIndex_knot hs h1 hi]
    have hji : i - 1 + 1 = i := by omega
    have e1 : K.x i - K.x (i - 1) = hdiff K (i - 1) := by
      unfold hdiff
      rw [hji]
    rw [e1]
    have := segEval_right_end hs (j := i - 1) (by omega)
    rwa [hji] at this

/-- `MonotonicInterpolator.__call__` reproduces every knot exactly
(the Hermite basis collapses at `t = 1`). -/
theorem monoEval_knot {K : Knots} (hs : StrictSorted K) (hn : 2 ≤ K.n)
    {i : ℕ} (hi : i < K.n) : monoEval K (K.x i) = K.y i := by
  unfold monoEval
  by_cases h0 : i = 0
  · subst h0
    rw [if_pos le_rfl]
  by_cases hlast : i = K.n - 1
  · have hx0 : K.x 0 < K.x i := x_lt_of_lt hs (by omega) hi
    rw [if_neg (not_le.mpr hx0), hlast, if_pos le_rfl]
  · have h1 : 1 ≤ i := by omega
    have hx0 : K.x 0 < K.x i := x_lt_of_lt hs (by omega) hi
    have hxl : K.x i < K.x (K.n - 1) :=
      x_lt_of_lt hs (show i < K.n - 1 by omega) (show K.n - 1 < K.n by omega)
    rw [if_neg (not_le.mpr hx0), if_neg (not_le.mpr hxl), segIndex_knot hs h1 hi]
    have hji : i - 1 + 1 = i := by omega
    rw [hji]
    have hne : K.x i - K.x (i - 1) ≠ 0 :=
      sub_ne_zero_of_ne (ne_of_gt (x_lt_of_lt hs (by omega) hi))
    rw [div_self hne]
    ring

/-- `np.interp` reproduces every knot exactly. -/
theorem npInterp_knot {K : Knots} (hs : StrictSorted K) (hn : 2 ≤ K.n)
    {i : ℕ} (hi : i < K.n) : npInterp K (K.x i) = K.y i := by
  unfold npInterp
  by_cases h0 : i = 0
  · subst h0
    rw [if_pos le_rfl]
  by_cases hlast : i = K.n - 1
  · have hx0 : K.x 0 < K.x i := x_lt_of_lt hs (by omega) hi
    rw [if_neg (not_le.mpr hx0), hlast, if_pos le_rfl]
  · have h1 : 1 ≤ i := by omega
    have hx0 : K.x 0 < K.x i := x_lt_of_lt hs (by omega) hi
    have hxl : K.x i < K.x (K.n - 1) :=
      x_lt_of_lt hs (show i < K.n - 1 by omega) (show K.n - 1 < K.n by omega)
    rw [if_neg (not_le.mpr hx0), if_neg (not_le.mpr hxl), segIndex_knot hs h1 hi]
    have hji : i - 1 + 1 = i := by omega
    rw [hji]
    have hne : K.x i - K.x (i - 1) ≠ 0 :=
      sub_ne_zero_of_ne (ne_of_gt (x_lt_of_lt hs (by omega) hi))
    rw [mul_div_assoc, div_self hne, mul_one]
    ring

/-! ## Thomas algorithm correctness: the solved `M` satisfies the
tridiagonal system -/

theorem cPrime_zero (K : Knots) : cPrime K 0 = 0 := by
  unfold cPrime upper diag
  norm_num

theorem cPrime_bounds {K : Knots} (hs : StrictSorted K) :
    ∀ i, i + 2 ≤ K.n → 0 ≤ cPrime K i ∧ cPrime K i ≤ 1 := by
  intro i
  induction i with
  | zero => intro _; rw [cPrime_zero]; norm_num
  | succ i ih =>
    intro hi
    have hbound := ih (by omega)
    have hup : upper K (i + 1) = hdiff K (i + 1) := by
      unfold upper
      rw [if_pos ⟨by omega, by omega⟩]
    have hlow : lower K i = hdiff K i := by
      unfold lower
      rw [if_pos (by omega)]
    have hdiag : diag K (i + 1) = 2 * (hdiff K i + hdiff K (i + 1)) := by
      unfold diag
      rw [if_neg (by omega), if_neg (by omega)]
      norm_num
    have hpi : 0 < hdiff K i := hdiff_pos hs (by omega)
    have hpi1 : 0 < hdiff K (i + 1) := hdiff_pos hs (by omega)
    have hden : hdiff K (i + 1) < diag K (i + 1) - lower K i * cPrime K i := by
      rw [hdiag, hlow]
      nlinarith [hbound.1, hbound.2]
    have hdenpos : 0 < diag K (i + 1) - lower K i * cPrime K i := hpi1.trans hden
    simp only [cPrime]
    rw [if_pos (show i + 1 < K.n - 1 by omega), hup]
    constructor
    · exact div_nonneg hpi1.le hdenpos.le
    · exact (div_le_one hdenpos).mpr hden.le

/-- The forward-sweep denominator at an interior row is strictly larger
than the corresponding super-diagonal entry (diagonal dominance). -/
theorem denom_gt {K : Knots} (hs : StrictSorted K) {i : ℕ} (hi : i + 3 ≤ K.n) :
    hdiff K (i + 1) < diag K (i + 1) - lower K i * cPrime K i := by
  have hbound := cPrime_bounds hs i (by omega)
  have hlow : lower K i = hdiff K i := by
    unfold lower
    rw [if_pos (by omega)]
  have hdiag : diag K (i + 1) = 2 * (hdiff K i + hdiff K (i + 1)) := by
    unfold diag
    rw [if_neg (by omega), if_neg (by omega)]
    norm_num
  have hpi : 0 < hdiff K i := hdiff_pos hs (by omega)
  have hpi1 : 0 < hdiff K (i + 1) := hdiff_pos hs (by omega)
  rw [hdiag, hlow]
  nlinarith [hbound.1, hbound.2]

theorem denom_ne_zero {K : Knots} (hs : StrictSorted K) {i : ℕ} (hi : i + 3 ≤ K.n) :
    diag K (i + 1) - lower K i * cPrime K i ≠ 0 :=
  ne_of_gt ((hdiff_pos hs (by omega)).trans (denom_gt hs hi))

/-- Clearing the division in the `d_prime` recurrence. -/
theorem dPrime_succ_mul {K : Knots} (hs : StrictSorted K) {i : ℕ} (hi : i + 3 ≤ K.n) :
    (diag K (i + 1) - lower K i * cPrime K i) * dPrime K (i + 1) =
      rhs K (i + 1) - lower K i * dPrime K i := by
  simp only [dPrime]
  rw [mul_div_cancel₀ _ (denom_ne_zero hs hi)]

/-- Clearing the division in the `c_prime` recurrence. -/
theorem cPrime_succ_mul {K : Knots} (hs : StrictSorted K) {i : ℕ} (hi : i + 3 ≤ K.n) :
    (diag K (i + 1) - lower K i * cPrime K i) * cPrime K (i + 1) = upper K (i + 1) := by
  simp only [cPrime]
  rw [if_pos (show i + 1 < K.n - 1 by omega), mul_div_cancel₀ _ (denom_ne_zero hs hi)]

/-- Unfolding of the back substitution `M[i] = d_prime[i] - c_prime[i]*M[i+1]`. -/
theorem M_rec {K : Knots} {i : ℕ} (hi : i + 2 ≤ K.n) :
    M K i = dPrime K i - cPrime K i * M K (i + 1) := by
  have h1 : K.n - 1 - i = K.n - 2 - i + 1 := by omega
  have h2 : K.n - 2 - (K.n - 2 - i) = i := by omega
  have h3 : K.n - 1 - (i + 1) = K.n - 2 - i := by omega
  unfold M
  rw [h1, h3]
  simp only [Maux]
  rw [h2]

/-- Every interior row of the tridiagonal system is satisfied by the
back-substituted second derivatives (row `j + 1`, written with the
right-hand side expanded). -/
theorem row_eq {K : Knots} (hs : StrictSorted K) {j : ℕ} (hj : j + 3 ≤ K.n) :
    hdiff K j * M K j + 2 * (hdiff K j + hdiff K (j + 1)) * M K (j + 1) +
      hdiff K (j + 1) * M K (j + 2) =
      3 * ((K.y (j + 2) - K.y (j + 1)) / hdiff K (j + 1) -
        (K.y (j + 1) - K.y j) / hdiff K j) := by
  have hM1 : M K j = dPrime K j - cPrime K j * M K (j + 1) := M_rec (by omega)
  have hM2 : M K (j + 1) = dPrime K (j + 1) - cPrime K (j + 1) * M K (j + 2) :=
    M_rec (by omega)
  have hdp := dPrime_succ_mul hs hj
  have hcp := cPrime_succ_mul hs hj
  have hlow : lower K j = hdiff K j := by
    unfold lower
    rw [if_pos (by omega)]
  have hdiag : diag K (j + 1) = 2 * (hdiff K j + hdiff K (j + 1)) := by
    unfold diag
    rw [if_neg (by omega), if_neg (by omega)]
    norm_num
  have hup : upper K (j + 1) = hdiff K (j + 1) := by
    unfold upper
    rw [if_pos ⟨by omega, by omega⟩]
  have hrhs : rhs K (j + 1) =
      3 * ((K.y (j + 2) - K.y (j + 1)) / hdiff K (j + 1) -
        (K.y (j + 1) - K.y j) / hdiff K j) := by
    unfold rhs
    rw [if_pos ⟨by omega, by omega⟩]
    norm_num
  rw [hlow, hdiag, hrhs] at hdp
  rw [hlow, hdiag, hup] at hcp
  rw [hM1, hM2]
  linear_combination hdp - M K (j + 2) * hcp

/-- C² continuity of the computed spline at an interior knot `j + 1`:
value, first and second derivative of segment `j` at `dx = h_j` agree with
segment `j + 1` at `dx = 0`. -/
theorem spline_c2_at {K : Knots} (hs : StrictSorted K) {j : ℕ}
    (hj : j + 3 ≤ K.n) :
    segEval K j (hdiff K j) = segEval K (j + 1) 0 ∧
    segD1 K j (hdiff K j) = segD1 K (j + 1) 0 ∧
    segD2 K j (hdiff K j) = segD2 K (j + 1) 0 := by
  have hne : hdiff K j ≠ 0 := hdiff_ne_zero hs (by omega)
  have h2 : K.n ≠ 2 := by omega
  refine ⟨?_, ?_, ?_⟩
  · rw [segEval_right_end hs (by omega), segEval_left_end]
  · have hrow := row_eq hs hj
    have key : segD1 K j (hdiff K j) =
        (K.y (j + 1) - K.y j) / hdiff K j +
          hdiff K j * (M K j + 2 * M K (j + 1)) / 3 := by
      unfold segD1 bcoef ccoef dcoef
      simp only [if_neg h2]
      field_simp
      ring
    have key2 : segD1 K (j + 1) 0 =
        (K.y (j + 2) - K.y (j + 1)) / hdiff K (j + 1) -
          hdiff K (j + 1) * (2 * M K (j + 1) + M K (j + 2)) / 3 := by
      unfold segD1 bcoef ccoef dcoef
      simp only [if_neg h2]
      ring
    rw [key, key2]
    linear_combination (1 / 3 : ℚ) * hrow
  · unfold segD2 ccoef dcoef
    simp only [if_neg h2]
    field_simp
    ring

/-! ## Claim theorems C1 and C2 -/

/-- C1: every interpolator (cubic spline, monotonic, linear) built from
`n ≥ 2` knots with strictly increasing abscissae reproduces every knot
value exactly when evaluated at the knot abscissa (exactly over `ℚ`, hence
within floating-point tolerance); in particular the spline's per-segment
coefficients satisfy `S_i(x_{i+1}) = y_{i+1}`, interior-knot evaluation
dispatching to the left segment at `dx = h_{i-1}`. -/
theorem c1_exact_interpolation (xs ys : List ℚ)
    (hlen : xs.length = ys.length) (hn : 2 ≤ xs.length)
    (hsort : xs.Chain' (· < ·)) (i : ℕ) (hi : i < xs.length) :
    splineEval (knotsOf xs ys) (xs.getD i 0) = ys.getD i 0 ∧
    monoEval (knotsOf xs ys) (xs.getD i 0) = ys.getD i 0 ∧
    npInterp (knotsOf xs ys) (xs.getD i 0) = ys.getD i 0 := by
  have hs := knotsOf_strict hlen hsort
  have hn' : 2 ≤ (knotsOf xs ys).n := by
    rw [knotsOf_n hlen hsort]
    exact hn
  have hi' : i < (knotsOf xs ys).n := by
    rw [knotsOf_n hlen hsort]
    exact hi
  have hx := knotsOf_x hlen hsort hi
  have hy := knotsOf_y hlen hsort hi
  rw [← hx, ← hy]
  exact ⟨splineEval_knot hs hn' hi', monoEval_knot hs hn' hi', npInterp_knot hs hn' hi'⟩

theorem c1_exact_interpolation_witness :
    ([(0 : ℚ), 1, 2].length = [(0 : ℚ), 1, 0].length ∧ 2 ≤ [(0 : ℚ), 1, 2].length ∧
      [(0 : ℚ), 1, 2].Chain' (· < ·) ∧ 1 < [(0 : ℚ), 1, 2].length) ∧
    (splineEval (knotsOf [0, 1, 2] [0, 1, 0]) ([(0 : ℚ), 1, 2].getD 1 0) =
        [(0 : ℚ), 1, 0].getD 1 0 ∧
      monoEval (knotsOf [0, 1, 2] [0, 1, 0]) ([(0 : ℚ), 1, 2].getD 1 0) =
        [(0 : ℚ), 1, 0].getD 1 0 ∧
      npInterp (knotsOf [0, 1, 2] [0, 1, 0]) ([(0 : ℚ), 1, 2].getD 1 0) =
        [(0 : ℚ), 1, 0].getD 1 0) :=
  ⟨⟨rfl, by norm_num, by norm_num [List.chain'_cons], by norm_num⟩,
    c1_exact_interpolation [0, 1, 2] [0, 1, 0] rfl (by norm_num) (by norm_num [List.chain'_cons]) 1 (by norm_num)⟩

/-- C2: for a cubic spline built from `n ≥ 3` strictly increasing knots, at
every interior knot `i` the value, first derivative, and second derivative of
the left segment `i - 1` evaluated at `dx = h_{i-1}` equal those of the right
segment `i` evaluated at `dx = 0` (exactly over `ℚ`): the Thomas-algorithm
solve yields a C²-continuous piecewise cubic. -/
theorem c2_spline_c2_continuity (xs ys : List ℚ)
    (hlen : xs.length = ys.length) (_hn : 3 ≤ xs.length)
    (hsort : xs.Chain' (· < ·)) (i : ℕ) (h1 : 1 ≤ i) (h2 : i + 1 < xs.length) :
    segEval (knotsOf xs ys) (i - 1) (hdiff (knotsOf xs ys) (i - 1)) =
      segEval (knotsOf xs ys) i 0 ∧
    segD1 (knotsOf xs ys) (i - 1) (hdiff (knotsOf xs ys) (i - 1)) =
      segD1 (knotsOf xs ys) i 0 ∧
    segD2 (knotsOf xs ys) (i - 1) (hdiff (knotsOf xs ys) (i - 1)) =
      segD2 (knotsOf xs ys) i 0 := by
  have hs := knotsOf_strict hlen hsort
  have hn' : (knotsOf xs ys).n = xs.length := knotsOf_n hlen hsort
  have hji : i - 1 + 1 = i := by omega
  have := spline_c2_at hs (K := knotsOf xs ys) (j := i - 1) (by omega)
  rwa [hji] at this

theorem c2_spline_c2_continuity_witness :
    ([(0 : ℚ), 1, 3].length = [(2 : ℚ), 1, 5].length ∧ 3 ≤ [(0 : ℚ), 1, 3].length ∧
      [(0 : ℚ), 1, 3].Chain' (· < ·) ∧ 1 ≤ 1 ∧ 1 + 1 < [(0 : ℚ), 1, 3].length) ∧
    (segEval (knotsOf [0, 1, 3] [2, 1, 5]) 0 (hdiff (knotsOf [0, 1, 3] [2, 1, 5]) 0) =
        segEval (knotsOf [0, 1, 3] [2, 1, 5]) 1 0 ∧
      segD1 (knotsOf [0, 1, 3] [2, 1, 5]) 0 (hdiff (knotsOf [0, 1, 3] [2, 1, 5]) 0) =
        segD1 (knotsOf [0, 1, 3] [2, 1, 5]) 1 0 ∧
      segD2 (knotsOf [0, 1, 3] [2, 1, 5]) 0 (hdiff (knotsOf [0, 1, 3] [2, 1, 5]) 0) =
        segD2 (knotsOf [0, 1, 3] [2, 1, 5]) 1 0) :=
  ⟨⟨rfl, by norm_num, by norm_num [List.chain'_cons], le_rfl, by norm_num⟩,
    c2_spline_c2_continuity [0, 1, 3] [2, 1, 5] rfl (by norm_num) (by norm_num [List.chain'_cons]) 1 le_rfl
      (by norm_num)⟩

/-! ## Fritsch–Carlson boundedness of the monotonic interpolator -/

/-- The cubic Hermite segment with nonnegative endpoint tangents bounded by
three times the secant stays inside the endpoint values (`u0`, `u1` stand
for `h·m0`, `h·m1`). -/
theorem hermite_within {y0 y1 u0 u1 t : ℚ} (ht0 : 0 ≤ t) (ht1 : t ≤ 1)
    (hu0 : 0 ≤ u0) (hu0' : u0 ≤ 3 * (y1 - y0))
    (hu1 : 0 ≤ u1) (hu1' : u1 ≤ 3 * (y1 - y0)) :
    y0 ≤ (2 * t ^ 3 - 3 * t ^ 2 + 1) * y0 + (t ^ 3 - 2 * t ^ 2 + t) * u0 +
        (-2 * t ^ 3 + 3 * t ^ 2) * y1 + (t ^ 3 - t ^ 2) * u1 ∧
      (2 * t ^ 3 - 3 * t ^ 2 + 1) * y0 + (t ^ 3 - 2 * t ^ 2 + t) * u0 +
        (-2 * t ^ 3 + 3 * t ^ 2) * y1 + (t ^ 3 - t ^ 2) * u1 ≤ y1 := by
  have hΔ : 0 ≤ y1 - y0 := by linarith
  have e1 : 0 ≤ t * (1 - t) ^ 2 := mul_nonneg ht0 (sq_nonneg (1 - t))
  have e2 : 0 ≤ t ^ 2 * (1 - t) := mul_nonneg (sq_nonneg t) (by linarith)
  have e3 : 0 ≤ (y1 - y0) * t ^ 3 := mul_nonneg hΔ (pow_nonneg ht0 3)
  have e4 : 0 ≤ (y1 - y0) * (1 - t) ^ 3 := mul_nonneg hΔ (pow_nonneg (by linarith) 3)
  constructor
  · have key : (2 * t ^ 3 - 3 * t ^ 2 + 1) * y0 + (t ^ 3 - 2 * t ^ 2 + t) * u0 +
        (-2 * t ^ 3 + 3 * t ^ 2) * y1 + (t ^ 3 - t ^ 2) * u1 - y0 =
        (y1 - y0) * t ^ 3 + u0 * (t * (1 - t) ^ 2) +
          (3 * (y1 - y0) - u1) * (t ^ 2 * (1 - t)) := by ring
    nlinarith [mul_nonneg hu0 e1, mul_nonneg (show (0 : ℚ) ≤ 3 * (y1 - y0) - u1 by linarith) e2]
  · have key : y1 - ((2 * t ^ 3 - 3 * t ^ 2 + 1) * y0 + (t ^ 3 - 2 * t ^ 2 + t) * u0 +
        (-2 * t ^ 3 + 3 * t ^ 2) * y1 + (t ^ 3 - t ^ 2) * u1) =
        (y1 - y0) * (1 - t) ^ 3 + (3 * (y1 - y0) - u0) * (t * (1 - t) ^ 2) +
          u1 * (t ^ 2 * (1 - t)) := by ring
    nlinarith [mul_nonneg hu1 e2, mul_nonneg (show (0 : ℚ) ≤ 3 * (y1 - y0) - u0 by linarith) e1]

theorem wharmonic_pos {d1 d2 w1 w2 : ℚ} (hd1 : 0 < d1) (hd2 : 0 < d2)
    (hw1 : 0 < w1) (hw2 : 0 < w2) : 0 < (w1 + w2) / (w1 / d1 + w2 / d2) :=
  div_pos (add_pos hw1 hw2) (add_pos (div_pos hw1 hd1) (div_pos hw2 hd2))

/-- The weighted harmonic mean of two positive slopes is bounded by `c·d2`
whenever `w1 + w2 ≤ c·w2`. -/
theorem wharmonic_le {d1 d2 w1 w2 c : ℚ} (hd1 : 0 < d1) (hd2 : 0 < d2)
    (hw1 : 0 < w1) (hw2 : 0 < w2) (hc : w1 + w2 ≤ c * w2) :
    (w1 + w2) / (w1 / d1 + w2 / d2) ≤ c * d2 := by
  have hB : 0 < w1 / d1 + w2 / d2 := add_pos (div_pos hw1 hd1) (div_pos hw2 hd2)
  rw [div_le_iff₀ hB]
  have hcpos : 0 < c := by nlinarith
  have key : c * d2 * (w1 / d1 + w2 / d2) = c * d2 * (w1 / d1) + c * w2 := by
    field_simp
    ring
  rw [key]
  have : 0 ≤ c * d2 * (w1 / d1) := le_of_lt (by positivity)
  linarith

/-- The computed tangent at the left end of segment `j` is nonnegative and
at most three times the segment's secant, whenever that secant is
nonnegative. -/
theorem mTangent_left_bound {K : Knots} (hs : StrictSorted K) {j : ℕ}
    (hj : j + 2 ≤ K.n) (hd : 0 ≤ delta K j) :
    0 ≤ mTangent K j ∧ mTangent K j ≤ 3 * delta K j := by
  unfold mTangent
  by_cases h0 : j = 0
  · subst h0
    rw [if_pos rfl, if_pos (show 1 < K.n by omega)]
    exact ⟨hd, by linarith⟩
  · rw [if_neg h0, if_neg (show ¬j = K.n - 1 by omega)]
    by_cases hprod : delta K (j - 1) * delta K j > 0
    · rw [if_pos hprod]
      have hdj : 0 < delta K j := by
        rcases lt_or_eq_of_le hd with h | h
        · exact h
        · rw [← h, mul_zero] at hprod
          exact absurd hprod (lt_irrefl 0)
      have hdj1 : 0 < delta K (j - 1) := by nlinarith
      have hp1 : 0 < hdiff K j := hdiff_pos hs (by omega)
      have hp0 : 0 < hdiff K (j - 1) := by
        have := hdiff_pos hs (i := j - 1) (by omega)
        exact this
      have hw1 : 0 < 2 * hdiff K j + hdiff K (j - 1) := by linarith
      have hw2 : 0 < hdiff K j + 2 * hdiff K (j - 1) := by linarith
      refine ⟨le_of_lt (wharmonic_pos hdj1 hdj hw1 hw2), ?_⟩
      exact wharmonic_le hdj1 hdj hw1 hw2 (by linarith)
    · rw [if_neg hprod]
      exact ⟨le_refl 0, by linarith⟩

/-- The computed tangent at the right end of segment `j` obeys the same
bounds relative to segment `j`'s secant. -/
theorem mTangent_right_bound {K : Knots} (hs : StrictSorted K) {j : ℕ}
    (hj : j + 2 ≤ K.n) (hd : 0 ≤ delta K j) :
    0 ≤ mTangent K (j + 1) ∧ mTangent K (j + 1) ≤ 3 * delta K j := by
  unfold mTangent
  rw [if_neg (show ¬j + 1 = 0 by omega)]
  by_cases hlast : j + 1 = K.n - 1
  · rw [if_pos hlast, if_pos (show 1 < K.n by omega)]
    have hn2 : K.n - 2 = j := by omega
    rw [hn2]
    exact ⟨hd, by linarith⟩
  · rw [if_neg hlast]
    have hsub : j + 1 - 1 = j := by omega
    rw [hsub]
    by_cases hprod : delta K j * delta K (j + 1) > 0
    · rw [if_pos hprod]
      have hdj : 0 < delta K j := by
        rcases lt_or_eq_of_le hd with h | h
        · exact h
        · rw [← h, zero_mul] at hprod
          exact absurd hprod (lt_irrefl 0)
      have hdj1 : 0 < delta K (j + 1) := by nlinarith
      have hint : j + 3 ≤ K.n := by omega
      have hp0 : 0 < hdiff K j := hdiff_pos hs (by omega)
      have hp1 : 0 < hdiff K (j + 1) := hdiff_pos hs (by omega)
      have hw1 : 0 < 2 * hdiff K (j + 1) + hdiff K j := by linarith
      have hw2 : 0 < hdiff K (j + 1) + 2 * hdiff K j := by linarith
      constructor
      · exact le_of_lt (wharmonic_pos hdj hdj1 hw1 hw2)
      · have hm := @wharmonic_le (delta K (j + 1)) (delta K j)
          (hdiff K (j + 1) + 2 * hdiff K j) (2 * hdiff K (j + 1) + hdiff K j)
          3 hdj1 hdj hw2 hw1 (by linarith)
        have hre : (2 * hdiff K (j + 1) + hdiff K j + (hdiff K (j + 1) + 2 * hdiff K j)) /
            ((2 * hdiff K (j + 1) + hdiff K j) / delta K j +
              (hdiff K (j + 1) + 2 * hdiff K j) / delta K (j + 1)) =
            (hdiff K (j + 1) + 2 * hdiff K j + (2 * hdiff K (j + 1) + hdiff K j)) /
            ((hdiff K (j + 1) + 2 * hdiff K j) / delta K (j + 1) +
              (2 * hdiff K (j + 1) + hdiff K j) / delta K j) := by
          ring_nf
        rw [hre]
        exact hm
    · rw [if_neg hprod]
      exact ⟨le_refl 0, by linarith⟩

/-- Evaluation on segment `j` stays between the two endpoint knot values
when both endpoint tangents obey the Fritsch–Carlson bounds for a
nondecreasing segment. -/
theorem monoEval_seg {K : Knots} (hs : StrictSorted K) {j : ℕ} (hj : j + 2 ≤ K.n)
    {v : ℚ} (hv1 : K.x j < v) (hv2 : v ≤ K.x (j + 1))
    (hm0 : 0 ≤ mTangent K j) (hm0' : mTangent K j ≤ 3 * delta K j)
    (hm1 : 0 ≤ mTangent K (j + 1)) (hm1' : mTangent K (j + 1) ≤ 3 * delta K j) :
    K.y j ≤ monoEval K v ∧ monoEval K v ≤ K.y (j + 1) := by
  have hh : 0 < hdiff K j := hdiff_pos hs (by omega)
  have hδ : 0 ≤ delta K j := by linarith
  have hsub : 0 < K.x (j + 1) - K.x j := sub_pos.mpr (hs j (by omega))
  have hyy : K.y j ≤ K.y (j + 1) := by
    have hmul : delta K j * hdiff K j = K.y (j + 1) - K.y j := by
      unfold delta
      field_simp
    nlinarith [mul_nonneg hδ hh.le]
  by_cases hlastv : K.x (K.n - 1) ≤ v
  · -- only possible when the segment ends at the last knot and v hits it
    have hxle : K.x (j + 1) ≤ K.x (K.n - 1) := x_le_of_le hs (by omega) (by omega)
    have hveq : v = K.x (j + 1) := le_antisymm hv2 (hxle.trans hlastv)
    have hjlast : j + 1 = K.n - 1 := by
      by_contra hcon
      have : K.x (j + 1) < K.x (K.n - 1) :=
        x_lt_of_lt hs (show j + 1 < K.n - 1 by omega) (by omega)
      linarith
    unfold monoEval
    rw [if_neg (not_le.mpr (lt_of_le_of_lt (x_le_of_le hs (by omega) (by omega)) hv1)),
      if_pos hlastv, ← hjlast]
    exact ⟨hyy, le_refl _⟩
  · have hg1 : ¬v ≤ K.x 0 :=
      not_le.mpr (lt_of_le_of_lt (x_le_of_le hs (by omega) (by omega)) hv1)
    unfold monoEval
    rw [if_neg hg1, if_neg hlastv, segIndex_eq hs hj hv1 hv2]
    set t := (v - K.x j) / (K.x (j + 1) - K.x j) with hht
    have ht0 : 0 ≤ t := div_nonneg (by linarith) hsub.le
    have ht1 : t ≤ 1 := (div_le_one hsub).mpr (by linarith)
    have hu0 : 0 ≤ (K.x (j + 1) - K.x j) * mTangent K j := mul_nonneg hsub.le hm0
    have hscale : (K.x (j + 1) - K.x j) * (3 * delta K j) = 3 * (K.y (j + 1) - K.y j) := by
      unfold delta hdiff
      field_simp
    have hu0' : (K.x (j + 1) - K.x j) * mTangent K j ≤ 3 * (K.y (j + 1) - K.y j) := by
      nlinarith [mul_le_mul_of_nonneg_left hm0' hsub.le]
    have hu1 : 0 ≤ (K.x (j + 1) - K.x j) * mTangent K (j + 1) := mul_nonneg hsub.le hm1
    have hu1' : (K.x (j + 1) - K.x j) * mTangent K (j + 1) ≤ 3 * (K.y (j + 1) - K.y j) := by
      nlinarith [mul_le_mul_of_nonneg_left hm1' hsub.le]
    have hb := @hermite_within (K.y j) (K.y (j + 1))
      ((K.x (j + 1) - K.x j) * mTangent K j)
      ((K.x (j + 1) - K.x j) * mTangent K (j + 1)) t ht0 ht1 hu0 hu0' hu1 hu1'
    constructor
    · linarith [hb.1]
    · linarith [hb.2]

/-- Mirror image of `hermite_within` for a nonincreasing segment. -/
theorem hermite_within_dec {y0 y1 u0 u1 t : ℚ} (ht0 : 0 ≤ t) (ht1 : t ≤ 1)
    (hu0 : u0 ≤ 0) (hu0' : 3 * (y1 - y0) ≤ u0)
    (hu1 : u1 ≤ 0) (hu1' : 3 * (y1 - y0) ≤ u1) :
    y1 ≤ (2 * t ^ 3 - 3 * t ^ 2 + 1) * y0 + (t ^ 3 - 2 * t ^ 2 + t) * u0 +
        (-2 * t ^ 3 + 3 * t ^ 2) * y1 + (t ^ 3 - t ^ 2) * u1 ∧
      (2 * t ^ 3 - 3 * t ^ 2 + 1) * y0 + (t ^ 3 - 2 * t ^ 2 + t) * u0 +
        (-2 * t ^ 3 + 3 * t ^ 2) * y1 + (t ^ 3 - t ^ 2) * u1 ≤ y0 := by
  have h := @hermite_within (-y0) (-y1) (-u0) (-u1) t ht0 ht1
    (by linarith) (by linarith) (by linarith) (by linarith)
  constructor
  · nlinarith [h.2]
  · nlinarith [h.1]

/-- The weighted harmonic mean of two negative slopes is negative and at
least `c·d2` whenever `w1 + w2 ≤ c·w2`. -/
theorem wharmonic_neg {d1 d2 w1 w2 c : ℚ} (hd1 : d1 < 0) (hd2 : d2 < 0)
    (hw1 : 0 < w1) (hw2 : 0 < w2) (hc : w1 + w2 ≤ c * w2) :
    (w1 + w2) / (w1 / d1 + w2 / d2) < 0 ∧
      c * d2 ≤ (w1 + w2) / (w1 / d1 + w2 / d2) := by
  have e1 : w1 / d1 = -(w1 / -d1) := by
    rw [div_neg, neg_neg]
  have e2 : w2 / d2 = -(w2 / -d2) := by
    rw [div_neg, neg_neg]
  have key : (w1 + w2) / (w1 / d1 + w2 / d2) = -((w1 + w2) / (w1 / -d1 + w2 / -d2)) := by
    rw [e1, e2, ← neg_add, div_neg]
  have hpos := wharmonic_pos (neg_pos.mpr hd1) (neg_pos.mpr hd2) hw1 hw2
  have hle := wharmonic_le (neg_pos.mpr hd1) (neg_pos.mpr hd2) hw1 hw2 hc
  rw [key]
  constructor
  · linarith
  · linarith

/-- Decreasing counterpart of `mTangent_left_bound`. -/
theorem mTangent_left_bound_dec {K : Knots} (hs : StrictSorted K) {j : ℕ}
    (hj : j + 2 ≤ K.n) (hd : delta K j ≤ 0) :
    3 * delta K j ≤ mTangent K j ∧ mTangent K j ≤ 0 := by
  unfold mTangent
  by_cases h0 : j = 0
  · subst h0
    rw [if_pos rfl, if_pos (show 1 < K.n by omega)]
    exact ⟨by linarith, hd⟩
  · rw [if_neg h0, if_neg (show ¬j = K.n - 1 by omega)]
    by_cases hprod : delta K (j - 1) * delta K j > 0
    · rw [if_pos hprod]
      have hdj : delta K j < 0 := by
        rcases lt_or_eq_of_le hd with h | h
        · exact h
        · rw [h, mul_zero] at hprod
          exact absurd hprod (lt_irrefl 0)
      have hdj1 : delta K (j - 1) < 0 := by nlinarith
      have hp1 : 0 < hdiff K j := hdiff_pos hs (by omega)
      have hp0 : 0 < hdiff K (j - 1) := hdiff_pos hs (i := j - 1) (by omega)
      have hw1 : 0 < 2 * hdiff K j + hdiff K (j - 1) := by linarith
      have hw2 : 0 < hdiff K j + 2 * hdiff K (j - 1) := by linarith
      have hb := wharmonic_neg hdj1 hdj hw1 hw2
        (c := 3) (by linarith)
      exact ⟨hb.2, le_of_lt hb.1⟩
    · rw [if_neg hprod]
      exact ⟨by linarith, le_refl 0⟩

/-- Decreasing counterpart of `mTangent_right_bound`. -/
theorem mTangent_right_bound_dec {K : Knots} (hs : StrictSorted K) {j : ℕ}
    (hj : j + 2 ≤ K.n) (hd : delta K j ≤ 0) :
    3 * delta K j ≤ mTangent K (j + 1) ∧ mTangent K (j + 1) ≤ 0 := by
  unfold mTangent
  rw [if_neg (show ¬j + 1 = 0 by omega)]
  by_cases hlast : j + 1 = K.n - 1
  · rw [if_pos hlast, if_pos (show 1 < K.n by omega)]
    have hn2 : K.n - 2 = j := by omega
    rw [hn2]
    exact ⟨by linarith, hd⟩
  · rw [if_neg hlast]
    have hsub : j + 1 - 1 = j := by omega
    rw [hsub]
    by_cases hprod : delta K j * delta K (j + 1) > 0
    · rw [if_pos hprod]
      have hdj : delta K j < 0 := by
        rcases lt_or_eq_of_le hd with h | h
        · exact h
        · rw [h, zero_mul] at hprod
          exact absurd hprod (lt_irrefl 0)
      have hdj1 : delta K (j + 1) < 0 := by nlinarith
      have hp0 : 0 < hdiff K j := hdiff_pos hs (by omega)
      have hp1 : 0 < hdiff K (j + 1) := hdiff_pos hs (by omega)
      have hw1 : 0 < 2 * hdiff K (j + 1) + hdiff K j := by linarith
      have hw2 : 0 < hdiff K (j + 1) + 2 * hdiff K j := by linarith
      have hb := @wharmonic_neg (delta K (j + 1)) (delta K j)
        (hdiff K (j + 1) + 2 * hdiff K j) (2 * hdiff K (j + 1) + hdiff K j)
        3 hdj1 hdj hw2 hw1 (by linarith)
      have hre : (2 * hdiff K (j + 1) + hdiff K j + (hdiff K (j + 1) + 2 * hdiff K j)) /
          ((2 * hdiff K (j + 1) + hdiff K j) / delta K j +
            (hdiff K (j + 1) + 2 * hdiff K j) / delta K (j + 1)) =
          (hdiff K (j + 1) + 2 * hdiff K j + (2 * hdiff K (j + 1) + hdiff K j)) /
          ((hdiff K (j + 1) + 2 * hdiff K j) / delta K (j + 1) +
            (2 * hdiff K (j + 1) + hdiff K j) / delta K j) := by
        ring_nf
      rw [hre]
      exact ⟨hb.2, le_of_lt hb.1⟩
    · rw [if_neg hprod]
      exact ⟨by linarith, le_refl 0⟩

/-- Decreasing counterpart of `monoEval_seg`. -/
theorem monoEval_seg_dec {K : Knots} (hs : StrictSorted K) {j : ℕ} (hj : j + 2 ≤ K.n)
    {v : ℚ} (hv1 : K.x j < v) (hv2 : v ≤ K.x (j + 1))
    (hm0 : 3 * delta K j ≤ mTangent K j) (hm0' : mTangent K j ≤ 0)
    (hm1 : 3 * delta K j ≤ mTangent K (j + 1)) (hm1' : mTangent K (j + 1) ≤ 0) :
    K.y (j + 1) ≤ monoEval K v ∧ monoEval K v ≤ K.y j := by
  have hh : 0 < hdiff K j := hdiff_pos hs (by omega)
  have hδ : delta K j ≤ 0 := by linarith
  have hsub : 0 < K.x (j + 1) - K.x j := sub_pos.mpr (hs j (by omega))
  have hyy : K.y (j + 1) ≤ K.y j := by
    have hmul : delta K j * hdiff K j = K.y (j + 1) - K.y j := by
      unfold delta
      field_simp
    nlinarith [mul_nonneg (neg_nonneg.mpr hδ) hh.le]
  by_cases hlastv : K.x (K.n - 1) ≤ v
  · have hxle : K.x (j + 1) ≤ K.x (K.n - 1) := x_le_of_le hs (by omega) (by omega)
    have hjlast : j + 1 = K.n - 1 := by
      by_contra hcon
      have : K.x (j + 1) < K.x (K.n - 1) :=
        x_lt_of_lt hs (show j + 1 < K.n - 1 by omega) (by omega)
      linarith
    unfold monoEval
    rw [if_neg (not_le.mpr (lt_of_le_of_lt (x_le_of_le hs (by omega) (by omega)) hv1)),
      if_pos hlastv, ← hjlast]
    exact ⟨le_refl _, hyy⟩
  · have hg1 : ¬v ≤ K.x 0 :=
      not_le.mpr (lt_of_le_of_lt (x_le_of_le hs (by omega) (by omega)) hv1)
    unfold monoEval
    rw [if_neg hg1, if_neg hlastv, segIndex_eq hs hj hv1 hv2]
    set t := (v - K.x j) / (K.x (j + 1) - K.x j) with hht
    have ht0 : 0 ≤ t := div_nonneg (by linarith) hsub.le
    have ht1 : t ≤ 1 := (div_le_one hsub).mpr (by linarith)
    have hu0 : (K.x (j + 1) - K.x j) * mTangent K j ≤ 0 :=
      mul_nonpos_of_nonneg_of_nonpos hsub.le hm0'
    have hscale : (K.x (j + 1) - K.x j) * (3 * delta K j) = 3 * (K.y (j + 1) - K.y j) := by
      unfold delta hdiff
      field_simp
    have hu0' : 3 * (K.y (j + 1) - K.y j) ≤ (K.x (j + 1) - K.x j) * mTangent K j := by
      nlinarith [mul_le_mul_of_nonneg_left hm0 hsub.le]
    have hu1 : (K.x (j + 1) - K.x j) * mTangent K (j + 1) ≤ 0 :=
      mul_nonpos_of_nonneg_of_nonpos hsub.le hm1'
    have hu1' : 3 * (K.y (j + 1) - K.y j) ≤ (K.x (j + 1) - K.x j) * mTangent K (j + 1) := by
      nlinarith [mul_le_mul_of_nonneg_left hm1 hsub.le]
    have hb := @hermite_within_dec (K.y j) (K.y (j + 1))
      ((K.x (j + 1) - K.x j) * mTangent K j)
      ((K.x (j + 1) - K.x j) * mTangent K (j + 1)) t ht0 ht1 hu0 hu0' hu1 hu1'
    constructor
    · linarith [hb.1]
    · linarith [hb.2]

/-- Increasing case of the no-overshoot property: over three consecutive
knots with nondecreasing values, evaluation anywhere in the bracketing
interval stays between the outer knot values. -/
theorem mono_no_overshoot_inc {K : Knots} (hs : StrictSorted K) {j : ℕ}
    (hj : j + 3 ≤ K.n)
    (hm1 : K.y j ≤ K.y (j + 1)) (hm2 : K.y (j + 1) ≤ K.y (j + 2))
    {v : ℚ} (hv1 : K.x j ≤ v) (hv2 : v ≤ K.x (j + 2)) :
    K.y j ≤ monoEval K v ∧ monoEval K v ≤ K.y (j + 2) := by
  have hh0 : 0 < hdiff K j := hdiff_pos hs (by omega)
  have hh1 : 0 < hdiff K (j + 1) := hdiff_pos hs (by omega)
  have hd0 : 0 ≤ delta K j := div_nonneg (by linarith) hh0.le
  have hd1 : 0 ≤ delta K (j + 1) := div_nonneg (by linarith) hh1.le
  rcases eq_or_lt_of_le hv1 with heq | hlt
  · rw [← heq, monoEval_knot hs (by omega) (by omega)]
    exact ⟨le_refl _, hm1.trans hm2⟩
  · by_cases hmid : v ≤ K.x (j + 1)
    · have hb := monoEval_seg hs (show j + 2 ≤ K.n by omega) hlt hmid
        (mTangent_left_bound hs (by omega) hd0).1
        (mTangent_left_bound hs (by omega) hd0).2
        (mTangent_right_bound hs (by omega) hd0).1
        (mTangent_right_bound hs (by omega) hd0).2
      exact ⟨hb.1, hb.2.trans hm2⟩
    · rcases eq_or_lt_of_le hv2 with heq2 | hlt2
      · rw [heq2, monoEval_knot hs (by omega) (by omega)]
        exact ⟨hm1.trans hm2, le_refl _⟩
      · have hb := monoEval_seg hs (show j + 1 + 2 ≤ K.n by omega)
          (show K.x (j + 1) < v from not_le.mp hmid) (le_of_lt hlt2)
          (mTangent_left_bound hs (by omega) hd1).1
          (mTangent_left_bound hs (by omega) hd1).2
          (mTangent_right_bound hs (by omega) hd1).1
          (mTangent_right_bound hs (by omega) hd1).2
        exact ⟨hm1.trans hb.1, hb.2⟩

/-- Decreasing case of the no-overshoot property. -/
theorem mono_no_overshoot_dec {K : Knots} (hs : StrictSorted K) {j : ℕ}
    (hj : j + 3 ≤ K.n)
    (hm1 : K.y (j + 1) ≤ K.y j) (hm2 : K.y (j + 2) ≤ K.y (j + 1))
    {v : ℚ} (hv1 : K.x j ≤ v) (hv2 : v ≤ K.x (j + 2)) :
    K.y (j + 2) ≤ monoEval K v ∧ monoEval K v ≤ K.y j := by
  have hh0 : 0 < hdiff K j := hdiff_pos hs (by omega)
  have hh1 : 0 < hdiff K (j + 1) := hdiff_pos hs (by omega)
  have hd0 : delta K j ≤ 0 := div_nonpos_of_nonpos_of_nonneg (by linarith) hh0.le
  have hd1 : delta K (j + 1) ≤ 0 := div_nonpos_of_nonpos_of_nonneg (by linarith) hh1.le
  rcases eq_or_lt_of_le hv1 with heq | hlt
  · rw [← heq, monoEval_knot hs (by omega) (by omega)]
    exact ⟨hm2.trans hm1, le_refl _⟩
  · by_cases hmid : v ≤ K.x (j + 1)
    · have hb := monoEval_seg_dec hs (show j + 2 ≤ K.n by omega) hlt hmid
        (mTangent_left_bound_dec hs (by omega) hd0).1
        (mTangent_left_bound_dec hs (by omega) hd0).2
        (mTangent_right_bound_dec hs (by omega) hd0).1
        (mTangent_right_bound_dec hs (by omega) hd0).2
      exact ⟨hm2.trans hb.1, hb.2⟩
    · rcases eq_or_lt_of_le hv2 with heq2 | hlt2
      · rw [heq2, monoEval_knot hs (by omega) (by omega)]
        exact ⟨le_refl _, hm2.trans hm1⟩
      · have hb := monoEval_seg_dec hs (show j + 1 + 2 ≤ K.n by omega)
          (show K.x (j + 1) < v from not_le.mp hmid) (le_of_lt hlt2)
          (mTangent_left_bound_dec hs (by omega) hd1).1
          (mTangent_left_bound_dec hs (by omega) hd1).2
          (mTangent_right_bound_dec hs (by omega) hd1).1
          (mTangent_right_bound_dec hs (by omega) hd1).2
        exact ⟨hb.1, hb.2.trans hm1⟩

/-- No-overshoot over three consecutive monotone knots, both directions. -/
theorem mono_no_overshoot {K : Knots} (hs : StrictSorted K) {j : ℕ}
    (hj : j + 3 ≤ K.n)
    (hmono : (K.y j ≤ K.y (j + 1) ∧ K.y (j + 1) ≤ K.y (j + 2)) ∨
      (K.y (j + 1) ≤ K.y j ∧ K.y (j + 2) ≤ K.y (j + 1)))
    {v : ℚ} (hv1 : K.x j ≤ v) (hv2 : v ≤ K.x (j + 2)) :
    min (min (K.y j) (K.y (j + 1))) (K.y (j + 2)) ≤ monoEval K v ∧
      monoEval K v ≤ max (max (K.y j) (K.y (j + 1))) (K.y (j + 2)) := by
  rcases hmono with ⟨hm1, hm2⟩ | ⟨hm1, hm2⟩
  · have hb := mono_no_overshoot_inc hs hj hm1 hm2 hv1 hv2
    exact ⟨le_trans (le_trans (min_le_left _ _) (min_le_left _ _)) hb.1,
      le_trans hb.2 (le_max_right _ _)⟩
  · have hb := mono_no_overshoot_dec hs hj hm1 hm2 hv1 hv2
    exact ⟨le_trans (min_le_right _ _) hb.1,
      le_trans hb.2 (le_trans (le_max_left _ _) (le_max_left _ _))⟩

/-- C3: for a `MonotonicInterpolator` built from strictly increasing knots,
over any three consecutive knots with monotone values (either direction) the
interpolant's value anywhere in `[x_{i-1}, x_{i+1}]` lies between the
minimum and maximum of the three bracketing knot values: the
Fritsch–Carlson tangent choice never overshoots. -/
theorem c3_monotonic_no_overshoot (xs ys : List ℚ)
    (hlen : xs.length = ys.length) (hsort : xs.Chain' (· < ·))
    (i : ℕ) (h1 : 1 ≤ i) (h2 : i + 1 < xs.length)
    (hmono : (ys.getD (i - 1) 0 ≤ ys.getD i 0 ∧ ys.getD i 0 ≤ ys.getD (i + 1) 0) ∨
      (ys.getD i 0 ≤ ys.getD (i - 1) 0 ∧ ys.getD (i + 1) 0 ≤ ys.getD i 0))
    (v : ℚ) (hv1 : xs.getD (i - 1) 0 ≤ v) (hv2 : v ≤ xs.getD (i + 1) 0) :
    min (min (ys.getD (i - 1) 0) (ys.getD i 0)) (ys.getD (i + 1) 0) ≤
        monoEval (knotsOf xs ys) v ∧
      monoEval (knotsOf xs ys) v ≤
        max (max (ys.getD (i - 1) 0) (ys.getD i 0)) (ys.getD (i + 1) 0) := by
  have hs := knotsOf_strict hlen hsort
  have hn := knotsOf_n hlen hsort
  have hx0 := knotsOf_x hlen hsort (show i - 1 < xs.length by omega)
  have hx2 := knotsOf_x hlen hsort (show i + 1 < xs.length from h2)
  have hy0 := knotsOf_y hlen hsort (show i - 1 < xs.length by omega)
  have hy1 := knotsOf_y hlen hsort (show i < xs.length by omega)
  have hy2 := knotsOf_y hlen hsort (show i + 1 < xs.length from h2)
  have hji : i - 1 + 1 = i := by omega
  have hji2 : i - 1 + 2 = i + 1 := by omega
  have hb := mono_no_overshoot (K := knotsOf xs ys) hs (j := i - 1)
    (by rw [hn]; omega)
    (by rw [hji, hji2, hy0, hy1, hy2]; exact hmono)
    (v := v) (by rw [hx0]; exact hv1) (by rw [hji2, hx2]; exact hv2)
  rwa [hji, hji2, hy0, hy1, hy2] at hb

theorem c3_monotonic_no_overshoot_witness :
    ([(0 : ℚ), 1, 2].length = [(0 : ℚ), 1, 3].length ∧
      [(0 : ℚ), 1, 2].Chain' (· < ·) ∧ 1 ≤ 1 ∧ 1 + 1 < [(0 : ℚ), 1, 2].length ∧
      ([(0 : ℚ), 1, 3].getD 0 0 ≤ [(0 : ℚ), 1, 3].getD 1 0 ∧
        [(0 : ℚ), 1, 3].getD 1 0 ≤ [(0 : ℚ), 1, 3].getD 2 0) ∧
      [(0 : ℚ), 1, 2].getD 0 0 ≤ (1 / 2 : ℚ) ∧ (1 / 2 : ℚ) ≤ [(0 : ℚ), 1, 2].getD 2 0) ∧
    (min (min ([(0 : ℚ), 1, 3].getD 0 0) ([(0 : ℚ), 1, 3].getD 1 0)) ([(0 : ℚ), 1, 3].getD 2 0) ≤
        monoEval (knotsOf [0, 1, 2] [0, 1, 3]) (1 / 2) ∧
      monoEval (knotsOf [0, 1, 2] [0, 1, 3]) (1 / 2) ≤
        max (max ([(0 : ℚ), 1, 3].getD 0 0) ([(0 : ℚ), 1, 3].getD 1 0))
          ([(0 : ℚ), 1, 3].getD 2 0)) :=
  ⟨⟨rfl, by norm_num [List.chain'_cons], le_rfl, by norm_num, by norm_num, by norm_num,
      by norm_num⟩,
    c3_monotonic_no_overshoot [0, 1, 2] [0, 1, 3] rfl (by norm_num [List.chain'_cons]) 1 le_rfl
      (by norm_num) (by norm_num) (1 / 2) (by norm_num) (by norm_num)⟩

/-! ## Bounded outputs of `ClimateInterpolator.interpolate` -/

theorem roundHalfEven_nonneg {q : ℚ} (h : 0 ≤ q) : 0 ≤ roundHalfEven q := by
  unfold roundHalfEven
  have hf : (0 : ℤ) ≤ ⌊q⌋ := Int.floor_nonneg.mpr h
  split_ifs <;> omega

theorem roundHalfEven_le {q : ℚ} {N : ℤ} (h : q ≤ N) : roundHalfEven q ≤ N := by
  unfold roundHalfEven
  have hfl : ⌊q⌋ ≤ N := by
    have := Int.floor_le_floor h
    rwa [Int.floor_intCast] at this
  have hflq : (⌊q⌋ : ℚ) ≤ q := Int.floor_le q
  split_ifs with h1 h2 h3
  · exact hfl
  · have hlt : (⌊q⌋ : ℚ) < (N : ℚ) := by linarith
    have : ⌊q⌋ < N := by exact_mod_cast hlt
    omega
  · exact hfl
  · have heq : q - ⌊q⌋ = 1 / 2 := le_antisymm (not_lt.mp h2) (not_lt.mp h1)
    have hlt : (⌊q⌋ : ℚ) < (N : ℚ) := by linarith
    have : ⌊q⌋ < N := by exact_mod_cast hlt
    omega

theorem pyRound_nonneg {q : ℚ} (d : ℕ) (h : 0 ≤ q) : 0 ≤ pyRound q d := by
  unfold pyRound
  have hp : (0 : ℚ) < 10 ^ d := by positivity
  apply div_nonneg _ hp.le
  have := roundHalfEven_nonneg (mul_nonneg h hp.le)
  exact_mod_cast this

theorem pyRound_le {q : ℚ} {N : ℤ} (d : ℕ) (h : q ≤ N) : pyRound q d ≤ N := by
  unfold pyRound
  have hp : (0 : ℚ) < 10 ^ d := by positivity
  rw [div_le_iff₀ hp]
  have hle : q * 10 ^ d ≤ ((N * 10 ^ d : ℤ) : ℚ) := by
    push_cast
    nlinarith
  have := roundHalfEven_le hle
  have hcast : ((roundHalfEven (q * 10 ^ d) : ℤ) : ℚ) ≤ ((N * 10 ^ d : ℤ) : ℚ) := by
    exact_mod_cast this
  calc ((roundHalfEven (q * 10 ^ d) : ℤ) : ℚ) ≤ ((N * 10 ^ d : ℤ) : ℚ) := hcast
    _ = (N : ℚ) * 10 ^ d := by push_cast; ring

/-- C4: for every successfully built `ClimateInterpolator` and every queried
year, the returned `ClimateState` has `0 ≤ ice_coverage_pct ≤ 100` and,
when present, `co2_ppm ≥ 0`; the bounds survive the rounding applied to the
clamped values. -/
theorem c4_bounded_outputs (tps : List TimePeriod) (m : InterpolationMethod)
    (mdl : ClimateModel) (_hbuild : climateBuild tps m = .ok mdl) (year : ℤ) :
    0 ≤ (mdl.interpolate year).ice_coverage_pct ∧
      (mdl.interpolate year).ice_coverage_pct ≤ 100 ∧
      ∀ c, (mdl.interpolate year).co2_ppm = some c → 0 ≤ c := by
  unfold ClimateModel.interpolate
  dsimp only
  refine ⟨?_, ?_, ?_⟩
  · exact pyRound_nonneg 2 (le_max_left _ _)
  · have hle : max 0 (min 100 (mdl.evalIce
        ((max mdl.min_year (min mdl.max_year year) : ℤ) : ℚ))) ≤ ((100 : ℤ) : ℚ) := by
      rw [max_le_iff]
      exact ⟨by norm_num, (min_le_left _ _).trans (by norm_num)⟩
    have := pyRound_le 2 hle
    exact_mod_cast this
  · intro c hc
    by_cases hco2 : mdl.hasCo2
    · rw [if_pos hco2, Option.some_inj] at hc
      rw [← hc]
      exact pyRound_nonneg 1 (le_max_left _ _)
    · rw [if_neg hco2] at hc
      exact absurd hc (Option.noConfusion)

theorem c4_bounded_outputs_witness :
    climateBuild [tpC, tpD] .cubic_spline =
      .ok { periods := [tpC, tpD], method := .cubic_spline } ∧
    (0 ≤ (ClimateModel.interpolate
        { periods := [tpC, tpD], method := .cubic_spline } 100).ice_coverage_pct ∧
      (ClimateModel.interpolate
        { periods := [tpC, tpD], method := .cubic_spline } 100).ice_coverage_pct ≤ 100 ∧
      ∀ c, (ClimateModel.interpolate
        { periods := [tpC, tpD], method := .cubic_spline } 100).co2_ppm = some c → 0 ≤ c) :=
  ⟨rfl,
    c4_bounded_outputs [tpC, tpD] .cubic_spline
      { periods := [tpC, tpD], method := .cubic_spline } rfl 100⟩

/-! ## Construction validation (claim C5) -/

/-- C5 counterexample: a `ClimateInterpolator` built with method `pchip`
from a single record succeeds — `MonotonicInterpolator.__init__` never
validates the knot count, so construction does not fail with an
insufficient-data error for every method. -/
theorem c5_counterexample :
    climateBuild [tpA] .pchip = .ok { periods := [tpA], method := .pchip } := rfl

/-- C5 (amended): with fewer than 2 records, construction with
`cubic_spline` or `akima` fails with the insufficient-data `ValueError`;
with exactly one record, `pchip` always succeeds and `linear` succeeds
exactly when some record lacks `co2_ppm` (otherwise the CO₂ spline raises the
same error). -/
theorem c5_insufficient_data (tps : List TimePeriod) (hlt : tps.length < 2) :
    climateBuild tps .cubic_spline = .error "Need at least 2 points for interpolation" ∧
    climateBuild tps .akima = .error "Need at least 2 points for interpolation" ∧
    (tps.length = 1 →
      (climateBuild tps .pchip = .ok { periods := sortPeriods tps, method := .pchip } ∧
        (climateBuild tps .linear = .ok { periods := sortPeriods tps, method := .linear } ↔
          ¬(sortPeriods tps).all (fun p => p.co2_ppm.isSome) = true))) := by
  refine ⟨?_, ?_, ?_⟩
  · simp only [climateBuild]
    rw [if_pos hlt]
  · simp only [climateBuild]
    rw [if_pos hlt]
  · intro h1
    constructor
    · simp only [climateBuild]
      rw [if_neg (by omega)]
    · simp only [climateBuild]
      by_cases hall : (sortPeriods tps).all (fun p => p.co2_ppm.isSome) = true
      · rw [if_pos ⟨hall, hlt⟩]
        exact iff_of_false (by intro hcon; cases hcon) (fun hcon => hcon hall)
      · rw [if_neg (fun hc => hall hc.1)]
        exact iff_of_true rfl hall

theorem c5_insufficient_data_witness :
    [tpA].length < 2 ∧
    (climateBuild [tpA] .cubic_spline = .error "Need at least 2 points for interpolation" ∧
      climateBuild [tpA] .akima = .error "Need at least 2 points for interpolation" ∧
      ([tpA].length = 1 →
        (climateBuild [tpA] .pchip = .ok { periods := sortPeriods [tpA], method := .pchip } ∧
          (climateBuild [tpA] .linear =
              .ok { periods := sortPeriods [tpA], method := .linear } ↔
            ¬(sortPeriods [tpA]).all (fun p => p.co2_ppm.isSome) = true)))) :=
  ⟨by norm_num, c5_insufficient_data [tpA] (by norm_num)⟩

/-! ## Rate of change (claim C6) -/

/-- C6 (amended): for models built with `cubic_spline` or `akima` (where the
sea-level interpolator is a `CubicSplineInterpolator`), the reported
ice-coverage rate of change is the hardcoded `0.0` for every year. -/
theorem c6_ice_rate_zero_cubic (tps : List TimePeriod) (m : InterpolationMethod)
    (mdl : ClimateModel) (hbuild : climateBuild tps m = .ok mdl)
    (hm : m = .cubic_spline ∨ m = .akima) (year : ℤ) :
    (mdl.get_rate_of_change year).ice_pct_per_year = 0 := by
  rcases hm with h | h
  · subst h
    simp only [climateBuild] at hbuild
    split at hbuild
    · cases hbuild
    · injection hbuild with h2
      subst h2
      rfl
  · subst h
    simp only [climateBuild] at hbuild
    split at hbuild
    · cases hbuild
    · injection hbuild with h2
      subst h2
      rfl

theorem c6_ice_rate_zero_cubic_witness :
    climateBuild [tpE, tpB] .cubic_spline =
      .ok { periods := [tpE, tpB], method := .cubic_spline } ∧
    (ClimateModel.get_rate_of_change
      { periods := [tpE, tpB], method := .cubic_spline } 100).ice_pct_per_year = 0 :=
  ⟨rfl,
    c6_ice_rate_zero_cubic [tpE, tpB] .cubic_spline
      { periods := [tpE, tpB], method := .cubic_spline } rfl (Or.inl rfl) 100⟩

/-- C6 counterexample: a `ClimateInterpolator` built with method `linear`
reports a nonzero ice-coverage rate (finite differencing of the clamped,
rounded states), so the rate is not 0 for every construction method. -/
theorem c6_counterexample :
    climateBuild [tpE, tpB] .linear = .ok { periods := [tpE, tpB], method := .linear } ∧
    (ClimateModel.get_rate_of_change
      { periods := [tpE, tpB], method := .linear } 100).ice_pct_per_year = 1 / 2 := by
  constructor
  · rfl
  · with_unfolding_all decide

/-! ## Derivative order validation (claims C7 and C9) -/

/-- C7 counterexample: at an out-of-range point (here the left endpoint
knot itself) the range check fires before the order check, so an
unsupported order `3` returns `0.0` instead of raising. -/
theorem c7_counterexample :
    derivative (knotsOf [0, 1] [0, 1]) 0 3 = .ok 0 := rfl

/-- C7 (amended): for every point strictly inside the knot range, requesting
a derivative of any order other than 1 or 2 raises the `ValueError`. -/
theorem c7_invalid_order_raises (K : Knots) (v : ℚ) (order : ℤ)
    (hv1 : K.x 0 < v) (hv2 : v < K.x (K.n - 1))
    (h1 : order ≠ 1) (h2 : order ≠ 2) :
    derivative K v order = .error "Only derivatives of order 1 and 2 are supported" := by
  unfold derivative
  rw [if_neg, if_neg h1, if_neg h2]
  rintro (h | h)
  · exact absurd h (not_le.mpr hv1)
  · exact absurd h (not_le.mpr hv2)

theorem c7_invalid_order_raises_witness :
    ((knotsOf [0, 1] [0, 1]).x 0 < 1 / 2 ∧
      (1 / 2 : ℚ) < (knotsOf [0, 1] [0, 1]).x ((knotsOf [0, 1] [0, 1]).n - 1) ∧
      (3 : ℤ) ≠ 1 ∧ (3 : ℤ) ≠ 2) ∧
    derivative (knotsOf [0, 1] [0, 1]) (1 / 2) 3 =
      .error "Only derivatives of order 1 and 2 are supported" :=
  ⟨⟨by with_unfolding_all decide, by with_unfolding_all decide, by decide, by decide⟩,
    c7_invalid_order_raises (knotsOf [0, 1] [0, 1]) (1 / 2) 3 (by with_unfolding_all decide)
      (by with_unfolding_all decide) (by decide) (by decide)⟩

/-- C9: for a spline built from `n ≥ 2` knots, `derivative(x, order)`
returns `0.0` for every `x` at or outside the knot range and for every
integer order, without raising — the range check precedes the order check. -/
theorem c9_deriv_zero_out_of_range (xs ys : List ℚ)
    (_hlen : xs.length = ys.length) (_hn : 2 ≤ xs.length) (v : ℚ) (order : ℤ)
    (hout : v ≤ (knotsOf xs ys).x 0 ∨ (knotsOf xs ys).x ((knotsOf xs ys).n - 1) ≤ v) :
    derivative (knotsOf xs ys) v order = .ok 0 := by
  unfold derivative
  rw [if_pos hout]

theorem c9_deriv_zero_out_of_range_witness :
    ([(0 : ℚ), 1].length = [(5 : ℚ), 7].length ∧ 2 ≤ [(0 : ℚ), 1].length ∧
      ((0 : ℚ) ≤ (knotsOf [0, 1] [5, 7]).x 0 ∨
        (knotsOf [0, 1] [5, 7]).x ((knotsOf [0, 1] [5, 7]).n - 1) ≤ (0 : ℚ)) ∧
      bcoef (knotsOf [0, 1] [5, 7]) 0 ≠ 0) ∧
    derivative (knotsOf [0, 1] [5, 7]) 0 3 = .ok 0 :=
  ⟨⟨rfl, by norm_num, Or.inl (by decide), by with_unfolding_all decide⟩,
    c9_deriv_zero_out_of_range [0, 1] [5, 7] rfl (by norm_num) 0 3 (Or.inl (by decide))⟩

/-! ## Method resolution (claim C8) -/

/-- C8 counterexample: `get_interpolation_method` silently substitutes
`cubic_spline` for an unrecognised method string instead of failing fast. -/
theorem c8_counterexample :
    get_interpolation_method "bogus" = .cubic_spline := rfl

/-- C8 (amended): for an unrecognised method string,
`interpolate_climate_state` fails fast with the `ValueError` from the enum
lookup, while `get_interpolation_method` silently falls back to
`cubic_spline`. -/
theorem c8_unknown_method (s : String) (hbad : parseMethod s = none) :
    (∀ (year : ℤ) (tps : List TimePeriod),
      interpolate_climate_state year tps s =
        .error "ValueError: not a valid InterpolationMethod") ∧
    get_interpolation_method s = .cubic_spline := by
  constructor
  · intro year tps
    unfold interpolate_climate_state
    rw [hbad]
  · unfold get_interpolation_method
    rw [hbad]
    rfl

theorem c8_unknown_method_witness :
    parseMethod "bogus" = none ∧
    ((∀ (year : ℤ) (tps : List TimePeriod),
      interpolate_climate_state year tps "bogus" =
        .error "ValueError: not a valid InterpolationMethod") ∧
    get_interpolation_method "bogus" = .cubic_spline) :=
  ⟨by decide, c8_unknown_method "bogus" (by decide)⟩

/-! ## Permutation invariance of construction (claim C10) -/

/-- Two strictly-key-sorted lists that are permutations of each other are
equal. -/
theorem sorted_key_perm_eq {α β : Type} [LinearOrder β] (key : α → β) :
    ∀ {l₁ l₂ : List α}, l₁.Perm l₂ →
      l₁.Pairwise (fun a b => key a < key b) →
      l₂.Pairwise (fun a b => key a < key b) → l₁ = l₂ := by
  intro l₁
  induction l₁ with
  | nil =>
    intro l₂ hp _ _
    exact (hp.symm.eq_nil).symm
  | cons a t ih =>
    intro l₂ hp hs1 hs2
    cases l₂ with
    | nil => exact absurd hp.eq_nil (List.cons_ne_nil a t)
    | cons b t₂ =>
      have hab : a = b := by
        have ha2 : a ∈ b :: t₂ := hp.mem_iff.mp (List.mem_cons_self a t)
        rcases List.mem_cons.mp ha2 with h | h
        · exact h
        · have hba : key b < key a := (List.pairwise_cons.mp hs2).1 a h
          have hb1 : b ∈ a :: t := hp.symm.mem_iff.mp (List.mem_cons_self b t₂)
          rcases List.mem_cons.mp hb1 with h' | h'
          · rw [h'] at hba
            exact absurd hba (lt_irrefl _)
          · have hab' : key a < key b := (List.pairwise_cons.mp hs1).1 b h'
            exact absurd (hba.trans hab') (lt_irrefl _)
      subst hab
      have htp : t.Perm t₂ := hp.cons_inv
      rw [ih htp (List.Pairwise.of_cons hs1) (List.Pairwise.of_cons hs2)]

/-- Sorting by year gives the same list on any permutation of a dataset
with distinct years. -/
theorem sortPeriods_perm_eq {tps₁ tps₂ : List TimePeriod} (hperm : tps₁.Perm tps₂)
    (hnodup : (tps₁.map (fun p => p.year)).Nodup) :
    sortPeriods tps₁ = sortPeriods tps₂ := by
  have hp₁ : (sortPeriods tps₁).Perm tps₁ := List.perm_insertionSort _ _
  have hp₂ : (sortPeriods tps₂).Perm tps₂ := List.perm_insertionSort _ _
  have hs₁ : (sortPeriods tps₁).Sorted (fun p q => p.year ≤ q.year) :=
    List.sorted_insertionSort _ _
  have hs₂ : (sortPeriods tps₂).Sorted (fun p q => p.year ≤ q.year) :=
    List.sorted_insertionSort _ _
  have hperm' : (sortPeriods tps₁).Perm (sortPeriods tps₂) :=
    hp₁.trans (hperm.trans hp₂.symm)
  have hnd₁ : ((sortPeriods tps₁).map (fun p => p.year)).Nodup :=
    ((hp₁.map _).nodup_iff).mpr hnodup
  have hnd₂ : ((sortPeriods tps₂).map (fun p => p.year)).Nodup :=
    ((hperm'.symm.map _).nodup_iff).mpr hnd₁
  have hlt₁ : (sortPeriods tps₁).Pairwise (fun a b => a.year < b.year) := by
    have hne := List.pairwise_map.mp hnd₁
    exact (List.Pairwise.and hs₁ hne).imp (fun h => lt_of_le_of_ne h.1 h.2)
  have hlt₂ : (sortPeriods tps₂).Pairwise (fun a b => a.year < b.year) := by
    have hne := List.pairwise_map.mp hnd₂
    exact (List.Pairwise.and hs₂ hne).imp (fun h => lt_of_le_of_ne h.1 h.2)
  exact sorted_key_perm_eq (fun p => p.year) hperm' hlt₁ hlt₂

/-- Sorting by abscissa gives the same pair list on any permutation with
distinct abscissae. -/
theorem sortPairs_perm_eq {ps₁ ps₂ : List (ℚ × ℚ)} (hperm : ps₁.Perm ps₂)
    (hnodup : (ps₁.map Prod.fst).Nodup) :
    sortPairs ps₁ = sortPairs ps₂ := by
  have hp₁ : (sortPairs ps₁).Perm ps₁ := List.perm_insertionSort _ _
  have hp₂ : (sortPairs ps₂).Perm ps₂ := List.perm_insertionSort _ _
  have hs₁ : (sortPairs ps₁).Sorted (fun p q => p.1 ≤ q.1) :=
    List.sorted_insertionSort _ _
  have hs₂ : (sortPairs ps₂).Sorted (fun p q => p.1 ≤ q.1) :=
    List.sorted_insertionSort _ _
  have hperm' : (sortPairs ps₁).Perm (sortPairs ps₂) :=
    hp₁.trans (hperm.trans hp₂.symm)
  have hnd₁ : ((sortPairs ps₁).map Prod.fst).Nodup :=
    ((hp₁.map _).nodup_iff).mpr hnodup
  have hnd₂ : ((sortPairs ps₂).map Prod.fst).Nodup :=
    ((hperm'.symm.map _).nodup_iff).mpr hnd₁
  have hlt₁ : (sortPairs ps₁).Pairwise (fun a b => a.1 < b.1) := by
    have hne := List.pairwise_map.mp hnd₁
    exact (List.Pairwise.and hs₁ hne).imp (fun h => lt_of_le_of_ne h.1 h.2)
  have hlt₂ : (sortPairs ps₂).Pairwise (fun a b => a.1 < b.1) := by
    have hne := List.pairwise_map.mp hnd₂
    exact (List.Pairwise.and hs₂ hne).imp (fun h => lt_of_le_of_ne h.1 h.2)
  exact sorted_key_perm_eq Prod.fst hperm' hlt₁ hlt₂

/-- C10: construction is permutation-invariant.  For datasets with distinct
years, building from any permutation yields the same `ClimateInterpolator`
state, hence pointwise-identical `interpolate` results; likewise each
single-variable interpolator over permuted `(x, y)` pairs with distinct
abscissae stores identical sorted knots, because every constructor sorts
its input before computing coefficients. -/
theorem c10_permutation_invariance (tps₁ tps₂ : List TimePeriod)
    (m : InterpolationMethod) (hperm : tps₁.Perm tps₂)
    (hnodup : (tps₁.map (fun p => p.year)).Nodup)
    (xs₁ ys₁ xs₂ ys₂ : List ℚ) (hzperm : (xs₁.zip ys₁).Perm (xs₂.zip ys₂))
    (hznodup : ((xs₁.zip ys₁).map Prod.fst).Nodup) :
    climateBuild tps₁ m = climateBuild tps₂ m ∧
    (∀ year : ℤ, (climateBuild tps₁ m).map (fun mdl => mdl.interpolate year) =
      (climateBuild tps₂ m).map (fun mdl => mdl.interpolate year)) ∧
    knotsOf xs₁ ys₁ = knotsOf xs₂ ys₂ := by
  have hsp := sortPeriods_perm_eq hperm hnodup
  have hlen := hperm.length_eq
  have hbuild : climateBuild tps₁ m = climateBuild tps₂ m := by
    cases m <;> simp only [climateBuild, hsp, hlen]
  refine ⟨hbuild, fun year => by rw [hbuild], ?_⟩
  unfold knotsOf
  rw [sortPairs_perm_eq hzperm hznodup]

theorem c10_permutation_invariance_witness :
    ([tpB, tpA].Perm [tpA, tpB] ∧ ([tpB, tpA].map (fun p => p.year)).Nodup ∧
      ([(1 : ℚ), 0].zip [(5 : ℚ), 7]).Perm ([(0 : ℚ), 1].zip [(7 : ℚ), 5]) ∧
      (([(1 : ℚ), 0].zip [(5 : ℚ), 7]).map Prod.fst).Nodup) ∧
    (climateBuild [tpB, tpA] .linear = climateBuild [tpA, tpB] .linear ∧
      (∀ year : ℤ,
        (climateBuild [tpB, tpA] .linear).map (fun mdl => mdl.interpolate year) =
          (climateBuild [tpA, tpB] .linear).map (fun mdl => mdl.interpolate year)) ∧
      knotsOf [1, 0] [5, 7] = knotsOf [0, 1] [7, 5]) :=
  ⟨⟨List.Perm.swap tpA tpB [], by decide, List.Perm.swap ((0 : ℚ), (7 : ℚ)) ((1 : ℚ), (5 : ℚ)) [],
      by decide⟩,
    c10_permutation_invariance [tpB, tpA] [tpA, tpB] .linear (List.Perm.swap tpA tpB [])
      (by decide) [1, 0] [5, 7] [0, 1] [7, 5]
      (List.Perm.swap ((0 : ℚ), (7 : ℚ)) ((1 : ℚ), (5 : ℚ)) []) (by decide)⟩

end Climate
